import Mathlib

/-!
# DfaDbTable: cross-segment regex index match

A shallow embedding of `DfaDbTable::indexMatchRegex`
(`src/terark/db/dfadb/dfadb_table.cpp`, lines 72-128) together with the
data it reads: the table schema, the segment list, the per-segment row
number base, the deletion bitmaps and the physical-to-logical id mapping;
of the string entry point (lines 130-137); and of the writable segment
factories `createWritableSegment` and `openWritableSegment` (lines 31-70).

Conventions.
* `llong` values are integers in `[-2^63, 2^63)`, `size_t` values are naturals
  below `2^64`; every conversion and every addition of the source is written
  with its explicit wrap-around.
* `valvec` and `std::vector` are lists; a subscript is an `Option`-returning
  lookup, and a lookup past the end ends the run in `Outcome.undefined`.
* A C++ exception ends the run in `Outcome.thrown`; the result accumulator
  keeps whatever it held when the exception left the function.
* The run carries a trace: the two diagnostics written to `stderr` and, as
  bookkeeping, the index fetches and `matchRegexAppend` calls it performs.
-/

namespace DfaDb

/-! ## Machine integers -/

/-- Two to the 64: the number of `size_t` values. -/
def twoPow64 : Nat := 18446744073709551616

/-- Two to the 63: `llong` values lie in `[-twoPow63, twoPow63)`. -/
def twoPow63 : Nat := 9223372036854775808

/-- Conversion `llong → size_t`, as in `size_t subPhysicId = (*recIdvec)[j]`
(line 112): the value modulo `2^64`. -/
def toSizeT (v : Int) : Nat := (v % (twoPow64 : Int)).toNat

/-- Conversion `size_t → llong`, as in the store `(*recIdvec)[i++] = ...`
(line 115): the value modulo `2^64`, read as a two's complement number. -/
def toLLong (n : Nat) : Int :=
  if n % twoPow64 < twoPow63 then ((n % twoPow64 : Nat) : Int)
  else ((n % twoPow64 : Nat) : Int) - (twoPow64 : Int)

/-- The expression `baseId + subLogicId` of line 115 with `llong baseId` and
`size_t subLogicId`: both operands are converted to the unsigned 64-bit type,
added modulo `2^64`, and the sum is stored into an `llong` slot. -/
def addBaseId (baseId : Int) (subLogicId : Nat) : Int :=
  toLLong (toSizeT baseId + subLogicId)

/-- An integer is an `llong` value. -/
def IsLLong (v : Int) : Prop := -(twoPow63 : Int) ≤ v ∧ v < (twoPow63 : Int)

instance (v : Int) : Decidable (IsLLong v) := by
  unfold IsLLong; exact inferInstance

/-! ## Data model -/

/-- Modelled from the spec: the column metadata type (declared in a header that
is not among the sources); the only property line 88 reads is whether the
column is string-typed. -/
structure ColumnMeta where
  isString : Bool
  deriving DecidableEq, Repr

/-- Modelled from the spec: an index definition (`Schema`, declared in a header
that is not among the sources) with its name and its ordered column list. -/
structure Schema where
  m_name : String
  columns : List ColumnMeta
  deriving DecidableEq, Repr

/-- Number of columns of an index definition: `schema.columnNum()`. -/
def Schema.columnNum (s : Schema) : Nat := s.columns.length

/-- Column lookup `schema.getColumnMeta(i)`. -/
def Schema.getColumnMeta (s : Schema) (i : Nat) : Option ColumnMeta := s.columns[i]?

/-- Modelled from the spec: the table schema (`m_schema`, declared in a header
that is not among the sources): the ordered list of index definitions. -/
structure SchemaConfig where
  indexSchemas : List Schema
  deriving DecidableEq, Repr

/-- Number of indices: `m_schema->getIndexNum()`. -/
def SchemaConfig.getIndexNum (s : SchemaConfig) : Nat := s.indexSchemas.length

/-- Index definition lookup `m_schema->getIndexSchema(indexId)`. -/
def SchemaConfig.getIndexSchema (s : SchemaConfig) (indexId : Nat) : Option Schema :=
  s.indexSchemas[indexId]?

/-- Modelled from the spec: the per-call query context (`DbContext`, declared in
a header that is not among the sources); the source reads its
`regexMatchMemLimit` for the diagnostic of line 123 and hands the context to
the match. -/
structure DbContext where
  regexMatchMemLimit : Nat
  deriving DecidableEq, Repr

/-- Modelled from the spec: the trie index capability (`NestLoudsTrieIndex`,
declared in `nlt_index.hpp`, which is not among the sources). Its
`matchRegexAppend(regexDFA, recIdvec, ctx)` appends physical row ids to the
output list and returns `false` to signal that the memory budget was exceeded.
The field gives the returned flag and the list of `llong` values the call
appended; nothing is assumed about what is appended when the flag is `false`. -/
structure NestLoudsTrieIndex (DFA : Type) where
  matchRegexAppend : DFA → DbContext → Bool × List Int

/-- An index object of a segment, seen through the `dynamic_cast` of line 103:
either the trie variant or any other variant. -/
inductive ReadableIndex (DFA : Type) where
  | nestLoudsTrie (index : NestLoudsTrieIndex DFA)
  | other

/-- Modelled from the spec: the part of a segment that `indexMatchRegex` reads
(the segment classes are declared in headers that are not among the sources).
`getWritableStore` is `true` when `seg->getWritableStore()` is non-null,
`m_indices` is the index list, `getLogicId` the physical-to-logical mapping,
`m_isDel` the deletion bitmap over segment-local logical ids and `m_segDir` the
segment directory. -/
structure ReadableSegment (DFA : Type) where
  getWritableStore : Bool
  m_indices : List (ReadableIndex DFA)
  getLogicId : Nat → Nat
  m_isDel : List Bool
  m_segDir : String

/-- Modelled from the spec: the logical row count of a segment, which the source
does not name; the deletion bitmap holds one bit per segment-local logical id. -/
def ReadableSegment.logicalRowCount {DFA : Type} (seg : ReadableSegment DFA) : Nat :=
  seg.m_isDel.length

/-- The fields of `DfaDbTable` that `indexMatchRegex` reads: the schema, the
segment list `m_segments` and the row number base `m_rowNumVec`. -/
structure DfaDbTable (DFA : Type) where
  m_schema : SchemaConfig
  m_segments : List (ReadableSegment DFA)
  m_rowNumVec : List Int

/-! ## Outcomes -/

/-- The exceptions `indexMatchRegex` throws, told apart by their message. The
first three are `std::invalid_argument` (lines 77, 83, 89), the last is the
`std::logic_error` of line 105. -/
inductive Fault where
  | invalidIndexId (indexId indexNum : Nat)
  | compositeIndex (indexId : Nat) (indexName : String)
  | nonStringIndex (indexId : Nat) (indexName : String)
  | notNestLoudsTrieIndex
  deriving DecidableEq, Repr

/-- How a run ends: a returned boolean, an exception, or a subscript past the
end of a container (for which the source defines no behaviour). -/
inductive Outcome where
  | returned (value : Bool)
  | thrown (fault : Fault)
  | undefined
  deriving DecidableEq, Repr

/-- Trace entries. `warnWritable i` is the diagnostic of lines 98-100 for
segment ordinal `i`; `warnMemLimit` is the diagnostic of lines 121-124 with the
budget, the index name and the segment directory; `fetchIndex i` records the
index fetch and cast of line 103 and `callMatch i` the call of line 108. -/
inductive Event where
  | warnWritable (i : Nat)
  | fetchIndex (i : Nat)
  | callMatch (i : Nat)
  | warnMemLimit (limit : Nat) (indexName : String) (segDir : String)
  deriving DecidableEq, Repr

/-- Final state of a run: the outcome, the caller's accumulator `*recIdvec` and
the trace. -/
structure Run where
  outcome : Outcome
  recIdvec : List Int
  trace : List Event
  deriving DecidableEq, Repr

/-! ## The algorithm -/

/-- The compaction loop of lines 111-116. `n` counts the iterations left, `j`
is the read cursor and `i` the write cursor. Returns the final write cursor and
the vector, or `none` when a subscript is out of range. -/
def compactLoop {DFA : Type} (seg : ReadableSegment DFA) (baseId : Int) :
    Nat → Nat → Nat → List Int → Option (Nat × List Int)
  | 0, _, i, vec => some (i, vec)
  | n + 1, j, i, vec =>
    match vec[j]? with
    | none => none
    | some v =>
      let subPhysicId := toSizeT v
      let subLogicId := seg.getLogicId subPhysicId
      match seg.m_isDel[subLogicId]? with
      | none => none
      | some true => compactLoop seg baseId n (j + 1) i vec
      | some false =>
        if i < vec.length then
          compactLoop seg baseId n (j + 1) (i + 1) (vec.set i (addBaseId baseId subLogicId))
        else none

/-- The segment loop of lines 95-126 from segment ordinal `i` on, over the
segments not yet visited. `schema` is the index definition bound at line 81. -/
def visitSegments {DFA : Type} (tab : DfaDbTable DFA) (indexId : Nat) (schema : Schema)
    (regexDFA : DFA) (ctx : DbContext) :
    List (ReadableSegment DFA) → Nat → List Int → List Event → Run
  | [], _, vec, tr => ⟨Outcome.returned true, vec, tr⟩
  | seg :: rest, i, vec, tr =>
    if seg.getWritableStore then
      visitSegments tab indexId schema regexDFA ctx rest (i + 1) vec
        (tr ++ [Event.warnWritable i])
    else
      match seg.m_indices[indexId]? with
      | none => ⟨Outcome.undefined, vec, tr ++ [Event.fetchIndex i]⟩
      | some ReadableIndex.other =>
        ⟨Outcome.thrown Fault.notNestLoudsTrieIndex, vec, tr ++ [Event.fetchIndex i]⟩
      | some (ReadableIndex.nestLoudsTrie index) =>
        let oldsize := vec.length
        let r := index.matchRegexAppend regexDFA ctx
        let vec1 := vec ++ r.2
        let tr1 := tr ++ [Event.fetchIndex i, Event.callMatch i]
        if r.1 then
          match tab.m_rowNumVec[i]? with
          | none => ⟨Outcome.undefined, vec1, tr1⟩
          | some baseId =>
            match compactLoop seg baseId (vec1.length - oldsize) oldsize oldsize vec1 with
            | none => ⟨Outcome.undefined, vec1, tr1⟩
            | some (k, vec2) =>
              visitSegments tab indexId schema regexDFA ctx rest (i + 1) (vec2.take k) tr1
        else
          visitSegments tab indexId schema regexDFA ctx rest (i + 1) vec1
            (tr1 ++ [Event.warnMemLimit ctx.regexMatchMemLimit schema.m_name seg.m_segDir])

/-- The automaton entry point `DfaDbTable::indexMatchRegex` (lines 72-128),
run on the caller's accumulator `recIdvec`. -/
def indexMatchRegex {DFA : Type} (tab : DfaDbTable DFA) (indexId : Nat) (regexDFA : DFA)
    (recIdvec : List Int) (ctx : DbContext) : Run :=
  if indexId ≥ tab.m_schema.getIndexNum then
    ⟨Outcome.thrown (Fault.invalidIndexId indexId tab.m_schema.getIndexNum), recIdvec, []⟩
  else
    match tab.m_schema.getIndexSchema indexId with
    | none => ⟨Outcome.undefined, recIdvec, []⟩
    | some schema =>
      if schema.columnNum > 1 then
        ⟨Outcome.thrown (Fault.compositeIndex indexId schema.m_name), recIdvec, []⟩
      else
        match schema.getColumnMeta 0 with
        | none => ⟨Outcome.undefined, recIdvec, []⟩
        | some colmeta =>
          if !colmeta.isString then
            ⟨Outcome.thrown (Fault.nonStringIndex indexId schema.m_name), recIdvec, []⟩
          else
            visitSegments tab indexId schema regexDFA ctx tab.m_segments 0 [] []


/-! ## The string entry point -/

/-- How a call of the string entry point ends: the exception of a failed regex
compilation, or the outcome of the automaton entry point. -/
inductive EntryOutcome (E : Type) where
  | compileError (e : E)
  | finished (o : Outcome)

/-- Final state of a call of the string entry point. -/
structure EntryRun (E : Type) where
  outcome : EntryOutcome E
  recIdvec : List Int
  trace : List Event

/-- The string entry point `DfaDbTable::indexMatchRegex(indexId, regexStr,
regexOptions, recIdvec, ctx)` of lines 130-137. `create_regex_dfa` is declared in
`terark/fsa/create_regex_dfa.hpp`, which is not among the sources, and is a
parameter: it returns the compiled automaton or fails with an exception, which
leaves line 135 before line 136 is reached. -/
def indexMatchRegexStr {DFA E : Type} (create_regex_dfa : String → String → Except E DFA)
    (tab : DfaDbTable DFA) (indexId : Nat) (regexStr regexOptions : String)
    (recIdvec : List Int) (ctx : DbContext) : EntryRun E :=
  match create_regex_dfa regexStr regexOptions with
  | Except.error e => ⟨EntryOutcome.compileError e, recIdvec, []⟩
  | Except.ok regexDFA =>
    let r := indexMatchRegex tab indexId regexDFA recIdvec ctx
    ⟨EntryOutcome.finished r.outcome, r.recIdvec, r.trace⟩

/-! ## Writable segment creation and opening -/

/-- A directory path, as its list of components. -/
abbrev PathRef := List String

/-- The path `dir / name` of `boost::filesystem`. -/
def PathRef.join (dir : PathRef) (name : String) : PathRef := dir ++ [name]

/-- The C library `tolower` in the C locale, on character codes: the letters
`A`-`Z` (65-90) go to `a`-`z`, every other code is unchanged. -/
def tolower (c : Nat) : Nat := if 65 ≤ c ∧ c ≤ 90 then c + 32 else c

/-- The C library `strcasecmp` on two C strings given without their terminating
NUL: the difference of the first pair of characters that differ after
`tolower`, the end of a string counting as the NUL character, and 0 when there
is no such pair. -/
def strcasecmp : List Char → List Char → Int
  | [], [] => 0
  | [], b :: _ => 0 - (tolower b.toNat : Int)
  | a :: _, [] => (tolower a.toNat : Int)
  | a :: as, b :: bs =>
    if tolower a.toNat = tolower b.toNat then strcasecmp as bs
    else (tolower a.toNat : Int) - (tolower b.toNat : Int)

/-- The two writable segment classes the factory instantiates:
`MockWritableSegment` and `wt::WtWritableSegment`. -/
inductive Backend where
  | mock
  | wiredTiger
  deriving DecidableEq, Repr

/-- Modelled from the spec: a writable segment object as far as the factory
shapes it (the classes are declared in headers that are not among the
sources): its backend class, the directory its constructor was given, the
attached schema `m_schema`, and, once `load(dir)` has run, the directory it
was loaded from together with the schema that was attached at that moment. -/
structure WritableSegment where
  backend : Backend
  ctorDir : Option PathRef
  m_schema : Option SchemaConfig
  loaded : Option (PathRef × Option SchemaConfig)
  deriving DecidableEq, Repr

/-- The environment of a factory call: the process environment read by
`getenv`, the file system seen by `boost::filesystem::exists`, and the error,
if any, with which `load(dir)` of a backend fails. -/
structure FactoryEnv (E : Type) where
  getenv : String → Option String
  pathExists : PathRef → Bool
  loadError : Backend → PathRef → Option E

/-- The constructor call `new MockWritableSegment(dir)`. -/
def newMockWritableSegment (dir : PathRef) : WritableSegment :=
  ⟨Backend.mock, some dir, none, none⟩

/-- The constructor call `new WtWritableSegment()`. -/
def newWtWritableSegment : WritableSegment :=
  ⟨Backend.wiredTiger, none, none, none⟩

/-- The assignment `seg->m_schema = this->m_schema`. -/
def WritableSegment.setSchema (seg : WritableSegment) (schema : SchemaConfig) :
    WritableSegment :=
  { seg with m_schema := some schema }

/-- The call `seg->load(dir)`: it throws the backend's load error, or marks the
segment as loaded from `dir` with the schema attached at that moment. -/
def WritableSegment.load {E : Type} (env : FactoryEnv E) (seg : WritableSegment)
    (dir : PathRef) : Except E WritableSegment :=
  match env.loadError seg.backend dir with
  | some e => Except.error e
  | none => Except.ok { seg with loaded := some (dir, seg.m_schema) }

/-- The condition of lines 34 and 53:
`dfaWritableSeg && strcasecmp(dfaWritableSeg, "mock") == 0`. -/
def overrideIsMock {E : Type} (env : FactoryEnv E) : Bool :=
  match env.getenv "TerarkDB_DfaWritableSegment" with
  | none => false
  | some dfaWritableSeg => strcasecmp dfaWritableSeg.data "mock".data == 0

/-- The factory `DfaDbTable::createWritableSegment` (lines 31-46) of a table with
schema `m_schema`. -/
def createWritableSegment {E : Type} (env : FactoryEnv E) (m_schema : SchemaConfig)
    (dir : PathRef) : Except E WritableSegment :=
  if overrideIsMock env then
    Except.ok ((newMockWritableSegment dir).setSchema m_schema)
  else
    (newWtWritableSegment.setSchema m_schema).load env dir

/-- The factory `DfaDbTable::openWritableSegment` (lines 48-70).
`myCreateWritableSegment` is a member of the base table class, which is not
among the sources, and is a parameter. -/
def openWritableSegment {E : Type} (env : FactoryEnv E) (m_schema : SchemaConfig)
    (myCreateWritableSegment : PathRef → Except E WritableSegment) (dir : PathRef) :
    Except E WritableSegment :=
  let isDelPath := dir.join "isDel"
  if env.pathExists isDelPath then
    if overrideIsMock env then
      ((newMockWritableSegment dir).setSchema m_schema).load env dir
    else
      (newWtWritableSegment.setSchema m_schema).load env dir
  else
    myCreateWritableSegment dir

/-! ## Specification-side definitions -/

/-- The deletion bit of segment-local logical id `l` is set. -/
def ReadableSegment.isDeleted {DFA : Type} (seg : ReadableSegment DFA) (l : Nat) : Bool :=
  match seg.m_isDel[l]? with
  | some b => b
  | none => false

/-- The trie index a segment holds at `indexId`, when the object there is the
trie variant. -/
def trieIndexAt {DFA : Type} (indexId : Nat) (seg : ReadableSegment DFA) :
    Option (NestLoudsTrieIndex DFA) :=
  match seg.m_indices[indexId]? with
  | some (ReadableIndex.nestLoudsTrie index) => some index
  | _ => none

/-- The flag the segment's match reports for the automaton (`none` when the
segment has no trie index at `indexId`). -/
def matchFlag {DFA : Type} (indexId : Nat) (regexDFA : DFA) (ctx : DbContext)
    (seg : ReadableSegment DFA) : Option Bool :=
  (trieIndexAt indexId seg).map (fun index => (index.matchRegexAppend regexDFA ctx).1)

/-- The values the segment's match appends for the automaton: its matched
physical ids when the match reports success. -/
def matchedIds {DFA : Type} (indexId : Nat) (regexDFA : DFA) (ctx : DbContext)
    (seg : ReadableSegment DFA) : List Int :=
  match trieIndexAt indexId seg with
  | some index => (index.matchRegexAppend regexDFA ctx).2
  | none => []

/-- The row ids one segment contributes, in the words of the specification:
translate each matched physical id to its logical id, drop the logical ids whose
deletion bit is set, and replace each survivor by `baseId + logicalId`. -/
def keptRowIds {DFA : Type} (seg : ReadableSegment DFA) (baseId : Int) (matched : List Int) :
    List Int :=
  ((matched.map (fun p => seg.getLogicId (toSizeT p))).filter
    (fun l => !(seg.isDeleted l))).map (fun l => addBaseId baseId l)

/-- The block one segment leaves in the accumulator: nothing for a writable
segment, the kept row ids after a successful match, and otherwise whatever the
failed match appended. -/
def segmentBlock {DFA : Type} (tab : DfaDbTable DFA) (indexId : Nat) (regexDFA : DFA)
    (ctx : DbContext) (i : Nat) (seg : ReadableSegment DFA) : List Int :=
  if seg.getWritableStore then []
  else
    match matchFlag indexId regexDFA ctx seg with
    | some true => keptRowIds seg (tab.m_rowNumVec.getD i 0) (matchedIds indexId regexDFA ctx seg)
    | _ => matchedIds indexId regexDFA ctx seg

/-- Concatenation of the segment blocks in table order, from ordinal `i` on. -/
def blocksFrom {DFA : Type} (tab : DfaDbTable DFA) (indexId : Nat) (regexDFA : DFA)
    (ctx : DbContext) : List (ReadableSegment DFA) → Nat → List Int
  | [], _ => []
  | seg :: rest, i =>
    segmentBlock tab indexId regexDFA ctx i seg ++ blocksFrom tab indexId regexDFA ctx rest (i + 1)

/-- The trace entries one segment produces when the loop runs through it. -/
def segmentTrace {DFA : Type} (indexId : Nat) (schema : Schema) (regexDFA : DFA)
    (ctx : DbContext) (i : Nat) (seg : ReadableSegment DFA) : List Event :=
  if seg.getWritableStore then [Event.warnWritable i]
  else
    match matchFlag indexId regexDFA ctx seg with
    | some true => [Event.fetchIndex i, Event.callMatch i]
    | some false => [Event.fetchIndex i, Event.callMatch i,
        Event.warnMemLimit ctx.regexMatchMemLimit schema.m_name seg.m_segDir]
    | none => [Event.fetchIndex i]

/-- Concatenation of the segment traces in table order, from ordinal `i` on. -/
def traceFrom {DFA : Type} (indexId : Nat) (schema : Schema) (regexDFA : DFA)
    (ctx : DbContext) : List (ReadableSegment DFA) → Nat → List Event
  | [], _ => []
  | seg :: rest, i =>
    segmentTrace indexId schema regexDFA ctx i seg
      ++ traceFrom indexId schema regexDFA ctx rest (i + 1)

/-- The index at `indexId` exists, has exactly one column, and that column is
string-typed: the three precondition checks of lines 76-92 pass with `schema`
bound at line 81. -/
def SingleStringIndex {DFA : Type} (tab : DfaDbTable DFA) (indexId : Nat) (schema : Schema) :
    Prop :=
  tab.m_schema.getIndexSchema indexId = some schema
    ∧ schema.columns.length = 1 ∧ schema.columns.all (fun c => c.isString) = true

instance {DFA : Type} (tab : DfaDbTable DFA) (indexId : Nat) (schema : Schema) :
    Decidable (SingleStringIndex tab indexId schema) := by
  unfold SingleStringIndex; exact inferInstance

/-- Every subscript the loop body evaluates on a readonly segment is in range:
the segment holds an index object at `indexId`, and after a successful match
every appended id translates to a logical id inside the deletion bitmap. -/
def SegmentInRange {DFA : Type} (indexId : Nat) (regexDFA : DFA) (ctx : DbContext)
    (seg : ReadableSegment DFA) : Prop :=
  seg.getWritableStore = false →
    indexId < seg.m_indices.length
      ∧ (matchFlag indexId regexDFA ctx seg = some true →
          ∀ p ∈ matchedIds indexId regexDFA ctx seg,
            seg.getLogicId (toSizeT p) < seg.m_isDel.length)

instance {DFA : Type} (indexId : Nat) (regexDFA : DFA) (ctx : DbContext)
    (seg : ReadableSegment DFA) : Decidable (SegmentInRange indexId regexDFA ctx seg) := by
  unfold SegmentInRange; exact inferInstance

/-- Table well-formedness for one call: the row number base has an entry for
every segment and every readonly segment is in range. -/
def WellFormed {DFA : Type} (tab : DfaDbTable DFA) (indexId : Nat) (regexDFA : DFA)
    (ctx : DbContext) : Prop :=
  tab.m_segments.length ≤ tab.m_rowNumVec.length
    ∧ ∀ seg ∈ tab.m_segments, SegmentInRange indexId regexDFA ctx seg

instance {DFA : Type} (tab : DfaDbTable DFA) (indexId : Nat) (regexDFA : DFA)
    (ctx : DbContext) : Decidable (WellFormed tab indexId regexDFA ctx) := by
  unfold WellFormed; exact inferInstance

/-- Every readonly segment holds the trie variant at `indexId`. -/
def AllReadonlyTrie {DFA : Type} (indexId : Nat) (segs : List (ReadableSegment DFA)) : Prop :=
  ∀ seg ∈ segs, seg.getWritableStore = false → (trieIndexAt indexId seg).isSome = true

instance {DFA : Type} (indexId : Nat) (segs : List (ReadableSegment DFA)) :
    Decidable (AllReadonlyTrie indexId segs) := by
  unfold AllReadonlyTrie; exact inferInstance

/-- The expected result, in the words of the specification: the concatenation,
in table order over the readonly segments from ordinal `i` on, of the row ids
kept from each segment's matched ids with the row number base at the segment's
ordinal. -/
def expectedRowIds {DFA : Type} (tab : DfaDbTable DFA) (indexId : Nat) (regexDFA : DFA)
    (ctx : DbContext) : List (ReadableSegment DFA) → Nat → List Int
  | [], _ => []
  | seg :: rest, i =>
    if seg.getWritableStore then expectedRowIds tab indexId regexDFA ctx rest (i + 1)
    else
      keptRowIds seg (tab.m_rowNumVec.getD i 0) (matchedIds indexId regexDFA ctx seg)
        ++ expectedRowIds tab indexId regexDFA ctx rest (i + 1)

/-- Every readonly segment's match reports success. -/
def AllMatchesSucceed {DFA : Type} (indexId : Nat) (regexDFA : DFA) (ctx : DbContext)
    (segs : List (ReadableSegment DFA)) : Prop :=
  ∀ seg ∈ segs, seg.getWritableStore = false → matchFlag indexId regexDFA ctx seg = some true

instance {DFA : Type} (indexId : Nat) (regexDFA : DFA) (ctx : DbContext)
    (segs : List (ReadableSegment DFA)) :
    Decidable (AllMatchesSucceed indexId regexDFA ctx segs) := by
  unfold AllMatchesSucceed; exact inferInstance

/-- Every readonly segment's failed match appended nothing before giving up. -/
def FailedMatchesAppendNothing {DFA : Type} (indexId : Nat) (regexDFA : DFA) (ctx : DbContext)
    (segs : List (ReadableSegment DFA)) : Prop :=
  ∀ seg ∈ segs, seg.getWritableStore = false →
    matchFlag indexId regexDFA ctx seg = some false → matchedIds indexId regexDFA ctx seg = []

instance {DFA : Type} (indexId : Nat) (regexDFA : DFA) (ctx : DbContext)
    (segs : List (ReadableSegment DFA)) :
    Decidable (FailedMatchesAppendNothing indexId regexDFA ctx segs) := by
  unfold FailedMatchesAppendNothing; exact inferInstance

/-- The row number base of segment ordinal `i`: `m_rowNumVec[i]`. -/
def rowBase {DFA : Type} (tab : DfaDbTable DFA) (i : Nat) : Int := tab.m_rowNumVec.getD i 0

/-- The logical row count of the segment at ordinal `i` (0 past the end). -/
def segCount {DFA : Type} (tab : DfaDbTable DFA) (i : Nat) : Nat :=
  match tab.m_segments[i]? with
  | some seg => seg.logicalRowCount
  | none => 0

/-- The data-model invariant on the row number base: for adjacent segments,
`rowBase[i+1] = rowBase[i] + segment[i].logicalRowCount`. -/
def RowBaseInvariant {DFA : Type} (tab : DfaDbTable DFA) : Prop :=
  ∀ i, i < tab.m_segments.length - 1 → rowBase tab (i + 1) = rowBase tab i + (segCount tab i : Int)

instance {DFA : Type} (tab : DfaDbTable DFA) : Decidable (RowBaseInvariant tab) := by
  unfold RowBaseInvariant; exact inferInstance

/-- The row ids of every segment are `llong` values: the base is one and the
end of the segment's range does not exceed `2^63`. -/
def RowIdsAreLLong {DFA : Type} (tab : DfaDbTable DFA) : Prop :=
  ∀ i, i < tab.m_segments.length →
    IsLLong (rowBase tab i) ∧ rowBase tab i + (segCount tab i : Int) ≤ (twoPow63 : Int)

instance {DFA : Type} (tab : DfaDbTable DFA) : Decidable (RowIdsAreLLong tab) := by
  unfold RowIdsAreLLong; exact inferInstance

/-- Row id `x` lies in the range of segment ordinal `i`:
`rowBase[i] <= x < rowBase[i] + segment[i].logicalRowCount`. -/
def InSegmentRange {DFA : Type} (tab : DfaDbTable DFA) (i : Nat) (x : Int) : Prop :=
  rowBase tab i ≤ x ∧ x < rowBase tab i + (segCount tab i : Int)

instance {DFA : Type} (tab : DfaDbTable DFA) (i : Nat) (x : Int) :
    Decidable (InSegmentRange tab i x) := by
  unfold InSegmentRange; exact inferInstance

/-- Row id `x` is the id of a row of segment ordinal `i` that is not marked
deleted there. -/
def LiveInSegment {DFA : Type} (tab : DfaDbTable DFA) (i : Nat) (x : Int) : Prop :=
  ∃ seg, tab.m_segments[i]? = some seg ∧ InSegmentRange tab i x
    ∧ seg.isDeleted (x - rowBase tab i).toNat = false

/-- Two runs agree in what the caller sees: the outcome and the accumulator. -/
def SameResult (r r2 : Run) : Prop := r.outcome = r2.outcome ∧ r.recIdvec = r2.recIdvec

instance (r r2 : Run) : Decidable (SameResult r r2) := by
  unfold SameResult; exact inferInstance

/-- The trace entry records an index fetch or a match call at segment
ordinal `j`. -/
def TouchesIndex (j : Nat) (e : Event) : Prop := e = Event.fetchIndex j ∨ e = Event.callMatch j

instance (j : Nat) (e : Event) : Decidable (TouchesIndex j e) := by
  unfold TouchesIndex; exact inferInstance

/-- Every segment is writable or its match reports that the budget was exceeded
without having appended anything. -/
def AllWritableOrExhausted {DFA : Type} (indexId : Nat) (regexDFA : DFA) (ctx : DbContext)
    (segs : List (ReadableSegment DFA)) : Prop :=
  ∀ seg ∈ segs, seg.getWritableStore = true
    ∨ (matchFlag indexId regexDFA ctx seg = some false
        ∧ matchedIds indexId regexDFA ctx seg = [])

instance {DFA : Type} (indexId : Nat) (regexDFA : DFA) (ctx : DbContext)
    (segs : List (ReadableSegment DFA)) :
    Decidable (AllWritableOrExhausted indexId regexDFA ctx segs) := by
  unfold AllWritableOrExhausted; exact inferInstance

/-! ## Example tables -/

/-- The query context of the examples. -/
def exampleCtx : DbContext := ⟨1024⟩

/-- One single-column string index named `name`. -/
def stringSchema : SchemaConfig := ⟨[⟨"name", [⟨true⟩]⟩]⟩

/-- A readonly segment with one trie index whose match reports `flag` and
appends `ids`, the identity as physical-to-logical mapping and the given
deletion bitmap. -/
def trieSegment (dir : String) (flag : Bool) (ids : List Int) (isDel : List Bool) :
    ReadableSegment Unit :=
  ⟨false, [ReadableIndex.nestLoudsTrie ⟨fun _ _ => (flag, ids)⟩], fun p => p, isDel, dir⟩

/-- The scenario of the specification: row number base `[0, 100]`; segment 0 has
100 rows and matches physical ids 3 and 5, segment 1 matches physical id 2,
whose logical id 2 is deleted. -/
def scenarioTable : DfaDbTable Unit :=
  ⟨stringSchema,
   [trieSegment "rd-0" true [3, 5] (List.replicate 100 false),
    trieSegment "rd-1" true [2] [false, false, true]],
   [0, 100, 103]⟩

/-- Two readonly segments; the match of segment 0 appends 7 and then reports
that the budget was exceeded, the match of segment 1 succeeds with physical
id 1. -/
def budgetTable : DfaDbTable Unit :=
  ⟨stringSchema,
   [trieSegment "rd-0" false [7] (List.replicate 10 false),
    trieSegment "rd-1" true [1] (List.replicate 10 false)],
   [0, 10, 20]⟩

/-- As `budgetTable`, but the failed match of segment 0 appended nothing. -/
def cleanBudgetTable : DfaDbTable Unit :=
  ⟨stringSchema,
   [trieSegment "rd-0" false [] (List.replicate 10 false),
    trieSegment "rd-1" true [1] (List.replicate 10 false)],
   [0, 10, 20]⟩

/-- One readonly segment with a single row, which is deleted; its mapping sends
every physical id to logical id 0; its match appends 0 and then reports that
the budget was exceeded. -/
def junkTable : DfaDbTable Unit :=
  ⟨stringSchema,
   [⟨false, [ReadableIndex.nestLoudsTrie ⟨fun _ _ => (false, [0])⟩], fun _ => 0, [true], "rd-0"⟩],
   [0, 1]⟩

/-- A writable segment with the given deletion bitmap; its one index object is
not the trie variant. -/
def writableSegment (dir : String) (isDel : List Bool) : ReadableSegment Unit :=
  ⟨true, [ReadableIndex.other], fun p => p, isDel, dir⟩

/-- One readonly segment of three rows whose match succeeds with physical
id 0. -/
def plainTable : DfaDbTable Unit :=
  ⟨stringSchema, [trieSegment "rd-0" true [0] [false, false, false]], [0, 3]⟩

/-- The table `plainTable` with a writable segment of five rows inserted in front;
the row number base follows the invariant, so the readonly segment now starts
at 5. -/
def insertedTable : DfaDbTable Unit :=
  ⟨stringSchema,
   [writableSegment "wr-0" (List.replicate 5 false),
    trieSegment "rd-0" true [0] [false, false, false]],
   [0, 5, 8]⟩

/-- The table `plainTable` with a writable segment without rows inserted in
front. -/
def emptyInsertedTable : DfaDbTable Unit :=
  ⟨stringSchema,
   [writableSegment "wr-0" [], trieSegment "rd-0" true [0] [false, false, false]],
   [0, 0, 3]⟩

/-- A table whose only index has no column. -/
def emptyIndexTable : DfaDbTable Unit :=
  ⟨⟨[⟨"empty", []⟩]⟩, [trieSegment "rd-0" true [0] [false]], [0, 1]⟩

/-- A table whose only index is a composite of two string columns. -/
def compositeTable : DfaDbTable Unit :=
  ⟨⟨[⟨"pair", [⟨true⟩, ⟨true⟩]⟩]⟩, [trieSegment "rd-0" true [0] [false]], [0, 1]⟩

/-- A table whose only index has one column, which is not string-typed. -/
def intIndexTable : DfaDbTable Unit :=
  ⟨⟨[⟨"age", [⟨false⟩]⟩]⟩, [trieSegment "rd-0" true [0] [false]], [0, 1]⟩

/-- A table whose only index is a composite whose first column is not
string-typed. -/
def intPairTable : DfaDbTable Unit :=
  ⟨⟨[⟨"agepair", [⟨false⟩, ⟨true⟩]⟩]⟩, [trieSegment "rd-0" true [0] [false]], [0, 1]⟩

/-- A readonly segment whose index object is not the trie variant, after a
readonly segment whose match succeeds with physical id 0. -/
def mismatchTable : DfaDbTable Unit :=
  ⟨stringSchema,
   [trieSegment "rd-0" true [0] [false],
    ⟨false, [ReadableIndex.other], fun p => p, [false], "rd-1"⟩],
   [0, 1, 2]⟩

/-- A writable segment and a readonly segment whose match reports that the
budget was exceeded without having appended anything. -/
def emptyResultTable : DfaDbTable Unit :=
  ⟨stringSchema,
   [writableSegment "wr-0" [false], trieSegment "rd-1" false [] [false]],
   [0, 1, 2]⟩

/-- Every readonly segment's match reports success and appends nothing: the
automaton matches zero rows. -/
def MatchesNothing {DFA : Type} (indexId : Nat) (regexDFA : DFA) (ctx : DbContext)
    (segs : List (ReadableSegment DFA)) : Prop :=
  ∀ seg ∈ segs, seg.getWritableStore = false →
    matchFlag indexId regexDFA ctx seg = some true ∧ matchedIds indexId regexDFA ctx seg = []

instance {DFA : Type} (indexId : Nat) (regexDFA : DFA) (ctx : DbContext)
    (segs : List (ReadableSegment DFA)) :
    Decidable (MatchesNothing indexId regexDFA ctx segs) := by
  unfold MatchesNothing; exact inferInstance

/-- The fault is one of the three precondition faults of lines 76-92. -/
def Fault.isPrecondition : Fault → Bool
  | Fault.invalidIndexId _ _ => true
  | Fault.compositeIndex _ _ => true
  | Fault.nonStringIndex _ _ => true
  | Fault.notNestLoudsTrieIndex => false

/-- A writable segment, a readonly segment and again a readonly segment, none of
which matches a row. -/
def noMatchTable : DfaDbTable Unit :=
  ⟨stringSchema,
   [writableSegment "wr-0" [false], trieSegment "rd-1" true [] [false, true],
    trieSegment "rd-2" true [] []],
   [0, 1, 3, 3]⟩

/-- A regex compiler for the examples: the pattern `"("` does not compile, every
other pattern compiles to the one automaton. -/
def exampleCompile (regexStr _regexOptions : String) : Except String Unit :=
  if regexStr = "(" then Except.error "missing )" else Except.ok ()

/-- A string with its letters `A`-`Z` replaced by `a`-`z`, as character
codes. -/
def lowerCodes (s : List Char) : List Nat := s.map (fun c => tolower c.toNat)

/-- The override is set and equals `"mock"` ignoring letter case. -/
def OverrideNamesMock {E : Type} (env : FactoryEnv E) : Prop :=
  ∃ v, env.getenv "TerarkDB_DfaWritableSegment" = some v
    ∧ lowerCodes v.data = lowerCodes "mock".data

/-- The override, when set, is a C string: it holds no NUL character. -/
def OverrideIsCString {E : Type} (env : FactoryEnv E) : Prop :=
  ∀ v, env.getenv "TerarkDB_DfaWritableSegment" = some v → ∀ c ∈ v.data, c.toNat ≠ 0

/-- The mock segment `createWritableSegment` returns: bound to `dir`, schema
attached, not loaded. -/
def mockSegmentFor (m_schema : SchemaConfig) (dir : PathRef) : WritableSegment :=
  ⟨Backend.mock, some dir, some m_schema, none⟩

/-- The persistent segment after `load(dir)`: schema attached, then loaded from
`dir`. -/
def loadedWtSegmentFor (m_schema : SchemaConfig) (dir : PathRef) : WritableSegment :=
  ⟨Backend.wiredTiger, none, some m_schema, some (dir, some m_schema)⟩

/-- The mock segment after `load(dir)`: bound to `dir`, schema attached, then
loaded from `dir`. -/
def loadedMockSegmentFor (m_schema : SchemaConfig) (dir : PathRef) : WritableSegment :=
  ⟨Backend.mock, some dir, some m_schema, some (dir, some m_schema)⟩

/-- An environment for the examples: the override has the given value, the
listed paths exist, and no load fails. -/
def exampleEnv (overrideValue : Option String) (existing : List PathRef) : FactoryEnv String :=
  ⟨fun name => if name = "TerarkDB_DfaWritableSegment" then overrideValue else none,
   fun path => existing.contains path,
   fun _ _ => none⟩

/-- A creation routine for the examples: it returns a mock segment bound to the
directory, without schema. -/
def exampleCreate (dir : PathRef) : Except String WritableSegment :=
  Except.ok (newMockWritableSegment dir)

/-- The out-of-place reading of the compaction, in the words of the
specification: a stable filter-map over the newly appended slice that drops the
ids whose logical id is deleted and maps each survivor to its table-wide id. -/
def filterMapAppended {DFA : Type} (seg : ReadableSegment DFA) (baseId : Int)
    (appended : List Int) : List Int :=
  appended.filterMap (fun p =>
    if seg.isDeleted (seg.getLogicId (toSizeT p)) then none
    else some (addBaseId baseId (seg.getLogicId (toSizeT p))))

/-- An integer taken modulo `2^64` and read as a signed 64-bit number. -/
def wrapSigned (x : Int) : Int :=
  if x % (twoPow64 : Int) < (twoPow63 : Int) then x % (twoPow64 : Int)
  else x % (twoPow64 : Int) - (twoPow64 : Int)

/-- The schema has one valid index, but the readonly segment holds no index
object at all. -/
def shortIndexTable : DfaDbTable Unit :=
  ⟨stringSchema, [⟨false, [], fun p => p, [false], "rd-0"⟩], [0, 1]⟩

/-- One readonly segment of six rows, three of them deleted, whose mapping
reverses the physical order; its match succeeds with physical ids 0 to 5. -/
def compactionSegment : ReadableSegment Unit :=
  ⟨false, [ReadableIndex.nestLoudsTrie ⟨fun _ _ => (true, [0, 1, 2, 3, 4, 5])⟩],
   fun p => 5 - p, [true, false, false, true, true, false], "rd-0"⟩

/-! ## Auxiliary facts -/

theorem keptRowIds_cons_deleted {DFA : Type} (seg : ReadableSegment DFA) (baseId : Int)
    (v : Int) (R : List Int) (h : seg.isDeleted (seg.getLogicId (toSizeT v)) = true) :
    keptRowIds seg baseId (v :: R) = keptRowIds seg baseId R := by
  simp [keptRowIds, h]

theorem keptRowIds_cons_kept {DFA : Type} (seg : ReadableSegment DFA) (baseId : Int)
    (v : Int) (R : List Int) (h : seg.isDeleted (seg.getLogicId (toSizeT v)) = false) :
    keptRowIds seg baseId (v :: R)
      = addBaseId baseId (seg.getLogicId (toSizeT v)) :: keptRowIds seg baseId R := by
  simp [keptRowIds, h]

theorem isDel_lookup {DFA : Type} (seg : ReadableSegment DFA) (l : Nat)
    (h : l < seg.m_isDel.length) : seg.m_isDel[l]? = some (seg.isDeleted l) := by
  unfold ReadableSegment.isDeleted
  rw [List.getElem?_eq_getElem h]

theorem getElem?_mid (P G R : List Int) (v : Int) :
    (P ++ G ++ v :: R)[P.length + G.length]? = some v := by
  have h : P.length + G.length = (P ++ G).length := by simp
  rw [h, List.getElem?_append_right (le_refl _)]
  simp

theorem set_mid (P G R : List Int) (g x : Int) :
    (P ++ g :: G ++ R).set P.length x = P ++ x :: G ++ R := by
  simp [List.append_assoc, List.set_append_right]

/-- The in-place loop over the unread tail `R`, with `P` already final and `G`
the slots read but not overwritten: it returns write cursor
`|P| + |kept R|`, and the vector truncated there is `P ++ kept R`. -/
theorem compactLoop_spec {DFA : Type} (seg : ReadableSegment DFA) (baseId : Int) :
    ∀ (R P G : List Int),
      (∀ v ∈ R, seg.getLogicId (toSizeT v) < seg.m_isDel.length) →
      ∃ vec2, compactLoop seg baseId R.length (P.length + G.length) P.length (P ++ G ++ R)
          = some (P.length + (keptRowIds seg baseId R).length, vec2)
        ∧ vec2.take (P.length + (keptRowIds seg baseId R).length) = P ++ keptRowIds seg baseId R
        ∧ vec2.length = P.length + G.length + R.length := by
  intro R
  induction R with
  | nil =>
    intro P G _
    refine ⟨P ++ G, ?_, ?_, ?_⟩
    · simp [compactLoop, keptRowIds]
    · simp [keptRowIds]
    · simp
  | cons v R ih =>
    intro P G hwf
    have hv : seg.getLogicId (toSizeT v) < seg.m_isDel.length := hwf v (List.mem_cons_self _ _)
    have hR : ∀ w ∈ R, seg.getLogicId (toSizeT w) < seg.m_isDel.length :=
      fun w hw => hwf w (List.mem_cons_of_mem _ hw)
    have hget := isDel_lookup seg _ hv
    cases hb : seg.isDeleted (seg.getLogicId (toSizeT v)) with
    | true =>
      obtain ⟨vec2, h1, h2, h3⟩ := ih P (G ++ [v]) hR
      rw [keptRowIds_cons_deleted seg baseId v R hb]
      refine ⟨vec2, ?_, h2, ?_⟩
      · simp only [List.length_cons, compactLoop, getElem?_mid, hget, hb]
        simpa [Nat.add_assoc] using h1
      · simp at h3 ⊢; omega
    | false =>
      rw [keptRowIds_cons_kept seg baseId v R hb]
      have hlt : P.length < (P ++ G ++ v :: R).length := by simp
      obtain ⟨g, G2, hG⟩ : ∃ g G2, G ++ [v] = g :: G2 := by
        cases G with
        | nil => exact ⟨v, [], rfl⟩
        | cons g G1 => exact ⟨g, G1 ++ [v], rfl⟩
      have hlen : G2.length = G.length := by
        have := congrArg List.length hG
        simp at this; omega
      have hvec : P ++ G ++ v :: R = P ++ g :: G2 ++ R := by
        have : P ++ G ++ v :: R = P ++ (G ++ [v]) ++ R := by simp
        rw [this, hG]
      obtain ⟨vec2, h1, h2, h3⟩ :=
        ih (P ++ [addBaseId baseId (seg.getLogicId (toSizeT v))]) G2 hR
      refine ⟨vec2, ?_, ?_, ?_⟩
      · simp only [List.length_cons, compactLoop, getElem?_mid, hget, hb, hlt, if_true]
        rw [hvec, set_mid]
        have e1 : P.length + G.length + 1
            = (P ++ [addBaseId baseId (seg.getLogicId (toSizeT v))]).length + G2.length := by
          simp; omega
        have e2 : P ++ addBaseId baseId (seg.getLogicId (toSizeT v)) :: G2 ++ R
            = P ++ [addBaseId baseId (seg.getLogicId (toSizeT v))] ++ G2 ++ R := by simp
        have e3 : P.length + 1 = (P ++ [addBaseId baseId (seg.getLogicId (toSizeT v))]).length := by
          simp
        rw [e1, e2, e3, h1]
        simp; omega
      · have e : P.length + (keptRowIds seg baseId R).length + 1
            = (P ++ [addBaseId baseId (seg.getLogicId (toSizeT v))]).length
              + (keptRowIds seg baseId R).length := by simp; omega
        simp only [List.length_cons]
        rw [← Nat.add_assoc, e, h2]; simp
      · simp at h3 ⊢; omega

/-- The compaction of lines 110-117 applied to `vec ++ appended`: the
truncated vector is `vec` followed by the kept row ids. -/
theorem compactLoop_appended {DFA : Type} (seg : ReadableSegment DFA) (baseId : Int)
    (vec appended : List Int)
    (h : ∀ v ∈ appended, seg.getLogicId (toSizeT v) < seg.m_isDel.length) :
    ∃ k vec2, compactLoop seg baseId ((vec ++ appended).length - vec.length) vec.length
        vec.length (vec ++ appended) = some (k, vec2)
      ∧ vec2.take k = vec ++ keptRowIds seg baseId appended := by
  obtain ⟨vec2, h1, h2, _⟩ := compactLoop_spec seg baseId appended vec [] h
  refine ⟨_, vec2, ?_, h2⟩
  have e : (vec ++ appended).length - vec.length = appended.length := by simp
  rw [e]
  simpa using h1

theorem trieIndexAt_eq_some {DFA : Type} (indexId : Nat) (seg : ReadableSegment DFA)
    (index : NestLoudsTrieIndex DFA) (h : trieIndexAt indexId seg = some index) :
    seg.m_indices[indexId]? = some (ReadableIndex.nestLoudsTrie index) := by
  unfold trieIndexAt at h
  split at h
  · next idx heq => simp at h; rw [heq, h]
  · simp at h

/-- The loop runs through every segment when all lookups are in range and
every readonly segment holds a trie index. -/
theorem visitSegments_run {DFA : Type} (tab : DfaDbTable DFA) (indexId : Nat) (schema : Schema)
    (regexDFA : DFA) (ctx : DbContext) :
    ∀ (segs : List (ReadableSegment DFA)) (i : Nat) (vec : List Int) (tr : List Event),
      (∀ seg ∈ segs, SegmentInRange indexId regexDFA ctx seg) →
      i + segs.length ≤ tab.m_rowNumVec.length →
      AllReadonlyTrie indexId segs →
      visitSegments tab indexId schema regexDFA ctx segs i vec tr
        = ⟨Outcome.returned true, vec ++ blocksFrom tab indexId regexDFA ctx segs i,
            tr ++ traceFrom indexId schema regexDFA ctx segs i⟩ := by
  intro segs
  induction segs with
  | nil => intro i vec tr _ _ _; simp [visitSegments, blocksFrom, traceFrom]
  | cons seg rest ih =>
    intro i vec tr hin hlen htrie
    have hin2 : ∀ s ∈ rest, SegmentInRange indexId regexDFA ctx s :=
      fun s hs => hin s (List.mem_cons_of_mem _ hs)
    have htrie2 : AllReadonlyTrie indexId rest :=
      fun s hs => htrie s (List.mem_cons_of_mem _ hs)
    have hlen2 : i + 1 + rest.length ≤ tab.m_rowNumVec.length := by
      simp at hlen; omega
    cases hw : seg.getWritableStore with
    | true =>
      simp only [visitSegments, hw, if_true, blocksFrom, traceFrom, segmentBlock, segmentTrace]
      rw [ih (i + 1) vec _ hin2 hlen2 htrie2]
      simp
    | false =>
      have hsome := htrie seg (List.mem_cons_self _ _) hw
      obtain ⟨index, hidx⟩ := Option.isSome_iff_exists.mp hsome
      have hget := trieIndexAt_eq_some indexId seg index hidx
      have hids : matchedIds indexId regexDFA ctx seg = (index.matchRegexAppend regexDFA ctx).2 := by
        simp [matchedIds, hidx]
      have hflag : matchFlag indexId regexDFA ctx seg
          = some (index.matchRegexAppend regexDFA ctx).1 := by
        simp [matchFlag, hidx]
      cases hok : (index.matchRegexAppend regexDFA ctx).1 with
      | true =>
        have hi : i < tab.m_rowNumVec.length := by simp at hlen; omega
        have hbase : tab.m_rowNumVec[i]? = some (tab.m_rowNumVec.getD i 0) := by
          rw [List.getD_eq_getElem?_getD, List.getElem?_eq_getElem hi]; simp
        have hrange := (hin seg (List.mem_cons_self _ _) hw).2 (by rw [hflag, hok])
        rw [hids] at hrange
        obtain ⟨k, vec2, hc, htake⟩ := compactLoop_appended seg (tab.m_rowNumVec.getD i 0) vec
          (index.matchRegexAppend regexDFA ctx).2 hrange
        simp only [visitSegments, hw, hget, hok, hbase, hc, if_true, blocksFrom, traceFrom,
          segmentBlock, segmentTrace, hflag, hids, Bool.false_eq_true, if_false]
        rw [htake, ih (i + 1) _ _ hin2 hlen2 htrie2]
        simp
      | false =>
        simp only [visitSegments, hw, hget, hok, blocksFrom, traceFrom,
          segmentBlock, segmentTrace, hflag, hids, Bool.false_eq_true, if_false]
        rw [ih (i + 1) _ _ hin2 hlen2 htrie2]
        simp

theorem singleString_columns (schema : Schema)
    (h1 : schema.columns.length = 1)
    (h2 : schema.columns.all (fun c => c.isString) = true) :
    ∃ c, schema.columns = [c] ∧ c.isString = true := by
  match hc : schema.columns with
  | [] => rw [hc] at h1; simp at h1
  | [c] => rw [hc] at h2; exact ⟨c, rfl, by simpa using h2⟩
  | _ :: _ :: _ => rw [hc] at h1; simp at h1

/-- When the three precondition checks pass, the call clears the accumulator
and runs the segment loop from ordinal 0. -/
theorem indexMatchRegex_eq_visit {DFA : Type} (tab : DfaDbTable DFA) (indexId : Nat)
    (schema : Schema) (regexDFA : DFA) (recIdvec : List Int) (ctx : DbContext)
    (hidx : SingleStringIndex tab indexId schema) :
    indexMatchRegex tab indexId regexDFA recIdvec ctx
      = visitSegments tab indexId schema regexDFA ctx tab.m_segments 0 [] [] := by
  obtain ⟨hs, h1, h2⟩ := hidx
  obtain ⟨c, hc, hstr⟩ := singleString_columns schema h1 h2
  have hlt : indexId < tab.m_schema.getIndexNum := by
    unfold SchemaConfig.getIndexSchema at hs
    unfold SchemaConfig.getIndexNum
    by_contra hge
    rw [List.getElem?_eq_none (Nat.le_of_not_lt hge)] at hs
    exact Option.noConfusion hs
  have hnot : ¬ (indexId ≥ tab.m_schema.getIndexNum) := Nat.not_le.mpr hlt
  have hcn : ¬ (schema.columnNum > 1) := by unfold Schema.columnNum; omega
  have hcm : schema.getColumnMeta 0 = some c := by
    unfold Schema.getColumnMeta; rw [hc]; rfl
  unfold indexMatchRegex
  rw [if_neg hnot, hs]
  simp only [if_neg hcn, hcm, hstr, Bool.not_true, Bool.false_eq_true, if_false]

theorem blocksFrom_eq_expected {DFA : Type} (tab : DfaDbTable DFA) (indexId : Nat)
    (regexDFA : DFA) (ctx : DbContext) :
    ∀ (segs : List (ReadableSegment DFA)) (i : Nat),
      FailedMatchesAppendNothing indexId regexDFA ctx segs →
      AllReadonlyTrie indexId segs →
      blocksFrom tab indexId regexDFA ctx segs i = expectedRowIds tab indexId regexDFA ctx segs i := by
  intro segs
  induction segs with
  | nil => intro i _ _; rfl
  | cons seg rest ih =>
    intro i hf ht
    have ih2 := ih (i + 1) (fun s hs => hf s (List.mem_cons_of_mem _ hs))
      (fun s hs => ht s (List.mem_cons_of_mem _ hs))
    cases hw : seg.getWritableStore with
    | true => simp [blocksFrom, expectedRowIds, segmentBlock, hw, ih2]
    | false =>
      have hsome := ht seg (List.mem_cons_self _ _) hw
      simp only [blocksFrom, expectedRowIds, segmentBlock, hw, ih2, Bool.false_eq_true, if_false]
      congr 1
      match hflag : matchFlag indexId regexDFA ctx seg with
      | some true => rfl
      | some false =>
        have := hf seg (List.mem_cons_self _ _) hw hflag
        simp [this, keptRowIds]
      | none =>
        unfold matchFlag at hflag
        rw [Option.map_eq_none'] at hflag
        rw [hflag] at hsome
        simp at hsome

theorem succeed_imp_trie {DFA : Type} (indexId : Nat) (regexDFA : DFA) (ctx : DbContext)
    (segs : List (ReadableSegment DFA)) (h : AllMatchesSucceed indexId regexDFA ctx segs) :
    AllReadonlyTrie indexId segs := by
  intro seg hseg hw
  have := h seg hseg hw
  unfold matchFlag at this
  cases ht : trieIndexAt indexId seg with
  | none => rw [ht] at this; simp at this
  | some _ => rfl

theorem succeed_imp_clean {DFA : Type} (indexId : Nat) (regexDFA : DFA) (ctx : DbContext)
    (segs : List (ReadableSegment DFA)) (h : AllMatchesSucceed indexId regexDFA ctx segs) :
    FailedMatchesAppendNothing indexId regexDFA ctx segs := by
  intro seg hseg hw hfalse
  have := h seg hseg hw
  rw [this] at hfalse
  simp at hfalse

/-- No wrap-around: when the base and the exact sum are `llong` values, the
64-bit addition of line 115 gives the exact sum. -/
theorem addBaseId_exact (baseId : Int) (l : Nat) (hb : IsLLong baseId)
    (hs : IsLLong (baseId + (l : Int))) : addBaseId baseId l = baseId + (l : Int) := by
  unfold IsLLong twoPow63 at hb hs
  unfold addBaseId toLLong toSizeT twoPow64 twoPow63
  push_cast at hb hs ⊢
  split <;> omega

/-- The whole call under well-formedness: it returns `true`, the accumulator
is the concatenation of the segment blocks and the trace that of the segment
traces. -/
theorem indexMatchRegex_run {DFA : Type} (tab : DfaDbTable DFA) (indexId : Nat)
    (schema : Schema) (regexDFA : DFA) (recIdvec : List Int) (ctx : DbContext)
    (hidx : SingleStringIndex tab indexId schema)
    (hwf : WellFormed tab indexId regexDFA ctx)
    (htrie : AllReadonlyTrie indexId tab.m_segments) :
    indexMatchRegex tab indexId regexDFA recIdvec ctx
      = ⟨Outcome.returned true, blocksFrom tab indexId regexDFA ctx tab.m_segments 0,
          traceFrom indexId schema regexDFA ctx tab.m_segments 0⟩ := by
  rw [indexMatchRegex_eq_visit tab indexId schema regexDFA recIdvec ctx hidx,
    visitSegments_run tab indexId schema regexDFA ctx tab.m_segments 0 [] [] hwf.2
      (by simpa using hwf.1) htrie]
  simp

/-! ## C1 -/

/-- C1. For a valid single-string-column index, a well-formed table and an
automaton for which every readonly segment holds a trie index whose match
reports success, the accumulator after `indexMatchRegex` is the concatenation,
in table order over the readonly segments, of each segment's matched physical
ids translated to logical ids, without those whose deletion bit is set, each
survivor replaced by `rowBase[i] + logicalId` for the segment's ordinal `i`, in
the order the match produced. The sum is the 64-bit addition of the source,
which is the exact integer sum whenever base and sum are `llong` values. -/
theorem indexMatchRegex_concatenates_kept_matches {DFA : Type} (tab : DfaDbTable DFA)
    (indexId : Nat) (schema : Schema) (regexDFA : DFA) (recIdvec : List Int) (ctx : DbContext)
    (hidx : SingleStringIndex tab indexId schema)
    (hwf : WellFormed tab indexId regexDFA ctx)
    (hok : AllMatchesSucceed indexId regexDFA ctx tab.m_segments) :
    (indexMatchRegex tab indexId regexDFA recIdvec ctx).recIdvec
        = expectedRowIds tab indexId regexDFA ctx tab.m_segments 0
      ∧ ∀ (baseId : Int) (l : Nat), IsLLong baseId → IsLLong (baseId + (l : Int)) →
          addBaseId baseId l = baseId + (l : Int) := by
  refine ⟨?_, addBaseId_exact⟩
  rw [indexMatchRegex_run tab indexId schema regexDFA recIdvec ctx hidx hwf
    (succeed_imp_trie indexId regexDFA ctx _ hok)]
  exact blocksFrom_eq_expected tab indexId regexDFA ctx _ 0
    (succeed_imp_clean indexId regexDFA ctx _ hok) (succeed_imp_trie indexId regexDFA ctx _ hok)

/-- Witness for C1 on the scenario table with a stale accumulator `[42]`. -/
theorem indexMatchRegex_concatenates_kept_matches_witness :
    SingleStringIndex scenarioTable 0 ⟨"name", [⟨true⟩]⟩
      ∧ WellFormed scenarioTable 0 () exampleCtx
      ∧ AllMatchesSucceed 0 () exampleCtx scenarioTable.m_segments
      ∧ (indexMatchRegex scenarioTable 0 () [42] exampleCtx).recIdvec
          = expectedRowIds scenarioTable 0 () exampleCtx scenarioTable.m_segments 0
      ∧ expectedRowIds scenarioTable 0 () exampleCtx scenarioTable.m_segments 0 = [3, 5] :=
  ⟨by decide, by decide, by decide,
    (indexMatchRegex_concatenates_kept_matches scenarioTable 0 ⟨"name", [⟨true⟩]⟩ () [42]
      exampleCtx (by decide) (by decide) (by decide)).1,
    by decide⟩

/-! ## C2 -/

/-- C2, as the claim states it, fails: in `budgetTable` the match of segment 0
appends 7 and reports that the budget was exceeded; the loop leaves that 7 in
the accumulator (after segment 0 the accumulator is `[7]`, not the empty
accumulator it was before), and the final result is `[7, 11]`, not the other
segment's `[11]`. -/
theorem budget_exceeded_restores_accumulator_counterexample :
    matchFlag 0 () exampleCtx (trieSegment "rd-0" false [7] (List.replicate 10 false))
        = some false
      ∧ (visitSegments budgetTable 0 ⟨"name", [⟨true⟩]⟩ () exampleCtx
          [trieSegment "rd-0" false [7] (List.replicate 10 false)] 0 [] []).recIdvec = [7]
      ∧ (indexMatchRegex budgetTable 0 () [] exampleCtx).outcome = Outcome.returned true
      ∧ (indexMatchRegex budgetTable 0 () [] exampleCtx).recIdvec = [7, 11]
      ∧ keptRowIds (trieSegment "rd-1" true [1] (List.replicate 10 false)) 10 [1] = [11]
      ∧ (indexMatchRegex budgetTable 0 () [] exampleCtx).recIdvec
          ≠ keptRowIds (trieSegment "rd-1" true [1] (List.replicate 10 false)) 10 [1] := by
  decide

/-- C2, amended. With the preconditions passed, the table well-formed and every
readonly segment holding a trie index, the call does not fail: it returns
`true`. A readonly segment whose match reports failure is followed by the rest
of the loop with the accumulator it had before the match extended by whatever
the match appended, and with the budget diagnostic in the trace. When every
failed match appended nothing, the final result is the concatenation of the
deletion-filtered, offset matches of the other readonly segments. -/
theorem budget_exceeded_keeps_appended {DFA : Type} (tab : DfaDbTable DFA)
    (indexId : Nat) (schema : Schema) (regexDFA : DFA) (recIdvec : List Int) (ctx : DbContext)
    (hidx : SingleStringIndex tab indexId schema)
    (hwf : WellFormed tab indexId regexDFA ctx)
    (htrie : AllReadonlyTrie indexId tab.m_segments) :
    (indexMatchRegex tab indexId regexDFA recIdvec ctx).outcome = Outcome.returned true
      ∧ (∀ (seg : ReadableSegment DFA) (rest : List (ReadableSegment DFA)) (i : Nat)
          (vec : List Int) (tr : List Event),
          seg.getWritableStore = false →
          matchFlag indexId regexDFA ctx seg = some false →
          visitSegments tab indexId schema regexDFA ctx (seg :: rest) i vec tr
            = visitSegments tab indexId schema regexDFA ctx rest (i + 1)
                (vec ++ matchedIds indexId regexDFA ctx seg)
                (tr ++ [Event.fetchIndex i, Event.callMatch i,
                  Event.warnMemLimit ctx.regexMatchMemLimit schema.m_name seg.m_segDir]))
      ∧ (FailedMatchesAppendNothing indexId regexDFA ctx tab.m_segments →
          (indexMatchRegex tab indexId regexDFA recIdvec ctx).recIdvec
            = expectedRowIds tab indexId regexDFA ctx tab.m_segments 0) := by
  have hrun := indexMatchRegex_run tab indexId schema regexDFA recIdvec ctx hidx hwf htrie
  refine ⟨by rw [hrun], ?_, ?_⟩
  · intro seg rest i vec tr hw hflag
    unfold matchFlag at hflag
    cases ht : trieIndexAt indexId seg with
    | none => rw [ht] at hflag; simp at hflag
    | some index =>
      rw [ht] at hflag
      simp only [Option.map_some', Option.some.injEq] at hflag
      have hget := trieIndexAt_eq_some indexId seg index ht
      simp [visitSegments, hw, hget, hflag, matchedIds, ht]
  · intro hclean
    rw [hrun]
    exact blocksFrom_eq_expected tab indexId regexDFA ctx _ 0 hclean htrie

/-- Witness for C2 (amended) on `cleanBudgetTable`: segment 0 reports budget
exhaustion and appended nothing, the result is segment 1's `[11]`. -/
theorem budget_exceeded_keeps_appended_witness :
    SingleStringIndex cleanBudgetTable 0 ⟨"name", [⟨true⟩]⟩
      ∧ WellFormed cleanBudgetTable 0 () exampleCtx
      ∧ AllReadonlyTrie 0 cleanBudgetTable.m_segments
      ∧ FailedMatchesAppendNothing 0 () exampleCtx cleanBudgetTable.m_segments
      ∧ (indexMatchRegex cleanBudgetTable 0 () [42] exampleCtx).outcome = Outcome.returned true
      ∧ (indexMatchRegex cleanBudgetTable 0 () [42] exampleCtx).recIdvec
          = expectedRowIds cleanBudgetTable 0 () exampleCtx cleanBudgetTable.m_segments 0
      ∧ expectedRowIds cleanBudgetTable 0 () exampleCtx cleanBudgetTable.m_segments 0 = [11] :=
  ⟨by decide, by decide, by decide, by decide,
    (budget_exceeded_keeps_appended cleanBudgetTable 0 ⟨"name", [⟨true⟩]⟩ () [42] exampleCtx
      (by decide) (by decide) (by decide)).1,
    (budget_exceeded_keeps_appended cleanBudgetTable 0 ⟨"name", [⟨true⟩]⟩ () [42] exampleCtx
      (by decide) (by decide) (by decide)).2.2 (by decide),
    by decide⟩

/-! ## Row id ranges -/

theorem mem_blocksFrom {DFA : Type} (tab : DfaDbTable DFA) (indexId : Nat)
    (regexDFA : DFA) (ctx : DbContext) (x : Int) :
    ∀ (segs : List (ReadableSegment DFA)) (i : Nat),
      x ∈ blocksFrom tab indexId regexDFA ctx segs i →
      ∃ k seg, segs[k]? = some seg ∧ x ∈ segmentBlock tab indexId regexDFA ctx (i + k) seg := by
  intro segs
  induction segs with
  | nil => intro i h; simp [blocksFrom] at h
  | cons seg rest ih =>
    intro i h
    simp only [blocksFrom, List.mem_append] at h
    rcases h with h | h
    · exact ⟨0, seg, by simp, by simpa using h⟩
    · obtain ⟨k, s, hs, hx⟩ := ih (i + 1) h
      refine ⟨k + 1, s, by simpa using hs, ?_⟩
      have e : i + (k + 1) = i + 1 + k := by omega
      rw [e]; exact hx

theorem mem_keptRowIds {DFA : Type} (seg : ReadableSegment DFA) (baseId : Int)
    (ids : List Int) (x : Int) (h : x ∈ keptRowIds seg baseId ids) :
    ∃ p ∈ ids, seg.isDeleted (seg.getLogicId (toSizeT p)) = false
      ∧ x = addBaseId baseId (seg.getLogicId (toSizeT p)) := by
  unfold keptRowIds at h
  simp only [List.mem_map, List.mem_filter] at h
  obtain ⟨l, ⟨⟨p, hp, hl⟩, hnd⟩, hx⟩ := h
  refine ⟨p, hp, ?_, ?_⟩
  · rw [hl]; simpa using hnd
  · rw [hl]; exact hx.symm

theorem rowBase_mono {DFA : Type} (tab : DfaDbTable DFA) (hinv : RowBaseInvariant tab)
    (i : Nat) : ∀ d, i + d + 1 < tab.m_segments.length →
      rowBase tab i + (segCount tab i : Int) ≤ rowBase tab (i + d + 1) := by
  intro d
  induction d with
  | zero =>
    intro h
    have := hinv i (by omega)
    simp only [Nat.add_zero]
    omega
  | succ d ih =>
    intro h
    have h1 := ih (by omega)
    have h2 := hinv (i + d + 1) (by omega)
    have e : i + (d + 1) + 1 = i + d + 1 + 1 := by omega
    rw [e]
    omega

theorem range_unique {DFA : Type} (tab : DfaDbTable DFA) (hinv : RowBaseInvariant tab)
    (x : Int) (i j : Nat) (hi : i < tab.m_segments.length) (hj : j < tab.m_segments.length)
    (ri : InSegmentRange tab i x) (rj : InSegmentRange tab j x) : j = i := by
  unfold InSegmentRange at ri rj
  rcases Nat.lt_trichotomy i j with h | h | h
  · obtain ⟨d, hd⟩ : ∃ d, j = i + d + 1 := ⟨j - i - 1, by omega⟩
    have := rowBase_mono tab hinv i d (by omega)
    rw [← hd] at this
    omega
  · exact h.symm
  · obtain ⟨d, hd⟩ : ∃ d, i = j + d + 1 := ⟨i - j - 1, by omega⟩
    have := rowBase_mono tab hinv j d (by omega)
    rw [← hd] at this
    omega

/-- Every entry of the result is the id of a live row of exactly one segment,
provided the table is well-formed, satisfies the row number base invariant,
its row ids are `llong` values and no failed match left anything behind. -/
theorem result_ids_live {DFA : Type} (tab : DfaDbTable DFA) (indexId : Nat)
    (regexDFA : DFA) (ctx : DbContext)
    (hwf : WellFormed tab indexId regexDFA ctx)
    (htrie : AllReadonlyTrie indexId tab.m_segments)
    (hclean : FailedMatchesAppendNothing indexId regexDFA ctx tab.m_segments)
    (hinv : RowBaseInvariant tab) (hrep : RowIdsAreLLong tab)
    (x : Int) (hx : x ∈ blocksFrom tab indexId regexDFA ctx tab.m_segments 0) :
    ∃ i, i < tab.m_segments.length ∧ LiveInSegment tab i x
      ∧ ∀ j, j < tab.m_segments.length → InSegmentRange tab j x → j = i := by
  obtain ⟨k, seg, hk, hxk⟩ := mem_blocksFrom tab indexId regexDFA ctx x _ 0 hx
  simp only [Nat.zero_add] at hxk
  have hklt : k < tab.m_segments.length := by
    by_contra hge
    rw [List.getElem?_eq_none (Nat.le_of_not_lt hge)] at hk
    exact Option.noConfusion hk
  have hmem : seg ∈ tab.m_segments := List.getElem?_mem hk
  have hcount : segCount tab k = seg.m_isDel.length := by
    simp [segCount, hk, ReadableSegment.logicalRowCount]
  have hlive : LiveInSegment tab k x := by
    unfold segmentBlock at hxk
    cases hw : seg.getWritableStore with
    | true => simp [hw] at hxk
    | false =>
      simp only [hw, Bool.false_eq_true, if_false] at hxk
      have hsome := htrie seg hmem hw
      match hflag : matchFlag indexId regexDFA ctx seg with
      | none =>
        unfold matchFlag at hflag
        rw [Option.map_eq_none'] at hflag
        rw [hflag] at hsome
        simp at hsome
      | some false =>
        rw [hflag] at hxk
        simp only [hclean seg hmem hw hflag] at hxk
        simp at hxk
      | some true =>
        rw [hflag] at hxk
        simp only at hxk
        obtain ⟨p, hp, hnd, hxe⟩ := mem_keptRowIds seg _ _ x hxk
        have hl := (hwf.2 seg hmem hw).2 hflag p hp
        obtain ⟨hb, hend⟩ := hrep k hklt
        rw [hcount] at hend
        have hexact : x = rowBase tab k + (seg.getLogicId (toSizeT p) : Int) := by
          rw [hxe]
          apply addBaseId_exact _ _ hb
          unfold IsLLong at hb ⊢
          constructor <;> omega
        refine ⟨seg, hk, ?_, ?_⟩
        · unfold InSegmentRange
          rw [hcount, hexact]
          constructor <;> omega
        · have : (x - rowBase tab k).toNat = seg.getLogicId (toSizeT p) := by
            rw [hexact]; simp
          rw [this]; exact hnd
  refine ⟨k, hklt, hlive, ?_⟩
  intro j hj hr
  obtain ⟨_, _, hrk, _⟩ := hlive
  exact range_unique tab hinv x k j hklt hj hrk hr

/-- C4, as the claim states it, fails: `junkTable` satisfies the row number base
invariant and its mapping returns ids below the logical row count, the call
returns `true`, and its result `[0]` is what the failed match appended: row id
0 is the id of a row that is marked deleted, so it is a live row of no
segment. -/
theorem result_ids_live_counterexample :
    SingleStringIndex junkTable 0 ⟨"name", [⟨true⟩]⟩
      ∧ WellFormed junkTable 0 () exampleCtx
      ∧ RowBaseInvariant junkTable ∧ RowIdsAreLLong junkTable
      ∧ (∀ seg ∈ junkTable.m_segments, ∀ p, seg.getLogicId p < seg.logicalRowCount)
      ∧ (indexMatchRegex junkTable 0 () [] exampleCtx).outcome = Outcome.returned true
      ∧ (indexMatchRegex junkTable 0 () [] exampleCtx).recIdvec = [0]
      ∧ ¬ ∃ i, LiveInSegment junkTable i 0 := by
  refine ⟨by decide, by decide, by decide, by decide, ?_, by decide, by decide, ?_⟩
  · intro seg hseg p
    simp only [junkTable, List.mem_singleton] at hseg
    subst hseg
    simp [ReadableSegment.logicalRowCount]
  · rintro ⟨i, seg, hs, _, hd⟩
    cases i with
    | zero =>
      simp only [junkTable, List.getElem?_cons_zero, Option.some.injEq] at hs
      subst hs
      revert hd
      decide
    | succ n => simp [junkTable] at hs

/-- C4, amended. For a well-formed table that satisfies the row number base
invariant with `llong` row ids, whose matched ids translate to logical ids
below the logical row count, and in which every readonly segment holds a trie
index whose match either reports success or appended nothing: the call returns
`true`, and every row id `x` of the result satisfies
`rowBase[i] <= x < rowBase[i] + segment[i].logicalRowCount` for exactly one
segment `i`, in which row `x - rowBase[i]` is not marked deleted. -/
theorem result_ids_in_exactly_one_live_segment {DFA : Type} (tab : DfaDbTable DFA)
    (indexId : Nat) (schema : Schema) (regexDFA : DFA) (recIdvec : List Int) (ctx : DbContext)
    (hidx : SingleStringIndex tab indexId schema)
    (hwf : WellFormed tab indexId regexDFA ctx)
    (htrie : AllReadonlyTrie indexId tab.m_segments)
    (hclean : FailedMatchesAppendNothing indexId regexDFA ctx tab.m_segments)
    (hinv : RowBaseInvariant tab) (hrep : RowIdsAreLLong tab) :
    (indexMatchRegex tab indexId regexDFA recIdvec ctx).outcome = Outcome.returned true
      ∧ ∀ x ∈ (indexMatchRegex tab indexId regexDFA recIdvec ctx).recIdvec,
          ∃ i, i < tab.m_segments.length ∧ LiveInSegment tab i x
            ∧ ∀ j, j < tab.m_segments.length → InSegmentRange tab j x → j = i := by
  have hrun := indexMatchRegex_run tab indexId schema regexDFA recIdvec ctx hidx hwf htrie
  refine ⟨by rw [hrun], ?_⟩
  intro x hx
  rw [hrun] at hx
  exact result_ids_live tab indexId regexDFA ctx hwf htrie hclean hinv hrep x hx

/-- Witness for C4 (amended) on the scenario table: row id 5 of the result
belongs to segment 0 and to no other. -/
theorem result_ids_in_exactly_one_live_segment_witness :
    SingleStringIndex scenarioTable 0 ⟨"name", [⟨true⟩]⟩
      ∧ WellFormed scenarioTable 0 () exampleCtx
      ∧ AllReadonlyTrie 0 scenarioTable.m_segments
      ∧ FailedMatchesAppendNothing 0 () exampleCtx scenarioTable.m_segments
      ∧ RowBaseInvariant scenarioTable ∧ RowIdsAreLLong scenarioTable
      ∧ (5 : Int) ∈ (indexMatchRegex scenarioTable 0 () [] exampleCtx).recIdvec
      ∧ ∃ i, i < scenarioTable.m_segments.length ∧ LiveInSegment scenarioTable i 5
          ∧ ∀ j, j < scenarioTable.m_segments.length → InSegmentRange scenarioTable j 5 → j = i :=
  ⟨by decide, by decide, by decide, by decide, by decide, by decide, by decide,
    (result_ids_in_exactly_one_live_segment scenarioTable 0 ⟨"name", [⟨true⟩]⟩ () [] exampleCtx
      (by decide) (by decide) (by decide) (by decide) (by decide) (by decide)).2 5 (by decide)⟩

/-! ## Skipping writable segments -/

/-- One step of the loop on two tables that agree on the row number base read
at this step: the runs agree as soon as the runs over the remaining segments
do, from every accumulator. -/
theorem visit_cons_same {DFA : Type} (tab tab2 : DfaDbTable DFA) (indexId : Nat)
    (schema : Schema) (regexDFA : DFA) (ctx : DbContext) (seg : ReadableSegment DFA)
    (rest rest2 : List (ReadableSegment DFA)) (i i2 : Nat) (vec : List Int)
    (tr tr2 : List Event)
    (hb : tab.m_rowNumVec[i]? = tab2.m_rowNumVec[i2]?)
    (hrest : ∀ (v : List Int) (t t2 : List Event),
      SameResult (visitSegments tab indexId schema regexDFA ctx rest (i + 1) v t)
        (visitSegments tab2 indexId schema regexDFA ctx rest2 (i2 + 1) v t2)) :
    SameResult (visitSegments tab indexId schema regexDFA ctx (seg :: rest) i vec tr)
      (visitSegments tab2 indexId schema regexDFA ctx (seg :: rest2) i2 vec tr2) := by
  cases hw : seg.getWritableStore with
  | true =>
    simp only [visitSegments, hw, if_true]
    exact hrest _ _ _
  | false =>
    simp only [visitSegments, hw, Bool.false_eq_true, if_false]
    match hidx : seg.m_indices[indexId]? with
    | none => exact ⟨rfl, rfl⟩
    | some ReadableIndex.other => exact ⟨rfl, rfl⟩
    | some (ReadableIndex.nestLoudsTrie index) =>
      simp only
      cases hok : (index.matchRegexAppend regexDFA ctx).1 with
      | false =>
        simp only [Bool.false_eq_true, if_false]
        exact hrest _ _ _
      | true =>
        simp only [if_true]
        rw [← hb]
        match hbase : tab.m_rowNumVec[i]? with
        | none => exact ⟨rfl, rfl⟩
        | some baseId =>
          simp only
          match hc : compactLoop seg baseId
              ((vec ++ (index.matchRegexAppend regexDFA ctx).2).length - vec.length)
              vec.length vec.length (vec ++ (index.matchRegexAppend regexDFA ctx).2) with
          | none => exact ⟨rfl, rfl⟩
          | some (k, vec2) => exact hrest _ _ _

theorem visit_same_bases {DFA : Type} (tab tab2 : DfaDbTable DFA) (indexId : Nat)
    (schema : Schema) (regexDFA : DFA) (ctx : DbContext) :
    ∀ (segs : List (ReadableSegment DFA)) (i i2 : Nat) (vec : List Int) (tr tr2 : List Event),
      (∀ k, k < segs.length → tab.m_rowNumVec[i + k]? = tab2.m_rowNumVec[i2 + k]?) →
      SameResult (visitSegments tab indexId schema regexDFA ctx segs i vec tr)
        (visitSegments tab2 indexId schema regexDFA ctx segs i2 vec tr2) := by
  intro segs
  induction segs with
  | nil => intro i i2 vec tr tr2 _; exact ⟨rfl, rfl⟩
  | cons seg rest ih =>
    intro i i2 vec tr tr2 hb
    apply visit_cons_same
    · simpa using hb 0 (by simp)
    · intro v t t2
      apply ih
      intro k hk
      have := hb (k + 1) (by simp; omega)
      have e1 : i + 1 + k = i + (k + 1) := by omega
      have e2 : i2 + 1 + k = i2 + (k + 1) := by omega
      rw [e1, e2]; exact this

theorem visit_insert_writable {DFA : Type} (tab tab2 : DfaDbTable DFA) (indexId : Nat)
    (schema : Schema) (regexDFA : DFA) (ctx : DbContext) (w : ReadableSegment DFA)
    (hw : w.getWritableStore = true) (s2 : List (ReadableSegment DFA)) :
    ∀ (s1 : List (ReadableSegment DFA)) (i i2 : Nat) (vec : List Int) (tr tr2 : List Event),
      (∀ k, k < s1.length → tab.m_rowNumVec[i + k]? = tab2.m_rowNumVec[i2 + k]?) →
      (∀ k, k < s2.length →
        tab.m_rowNumVec[i + s1.length + k]? = tab2.m_rowNumVec[i2 + s1.length + 1 + k]?) →
      SameResult (visitSegments tab indexId schema regexDFA ctx (s1 ++ s2) i vec tr)
        (visitSegments tab2 indexId schema regexDFA ctx (s1 ++ w :: s2) i2 vec tr2) := by
  intro s1
  induction s1 with
  | nil =>
    intro i i2 vec tr tr2 _ hb2
    simp only [List.nil_append]
    have hskip : visitSegments tab2 indexId schema regexDFA ctx (w :: s2) i2 vec tr2
        = visitSegments tab2 indexId schema regexDFA ctx s2 (i2 + 1) vec
            (tr2 ++ [Event.warnWritable i2]) := by
      simp only [visitSegments, hw, if_true]
    rw [hskip]
    apply visit_same_bases
    intro k hk
    simpa using hb2 k hk
  | cons seg rest ih =>
    intro i i2 vec tr tr2 hb1 hb2
    simp only [List.cons_append]
    apply visit_cons_same
    · simpa using hb1 0 (by simp)
    · intro v t t2
      apply ih
      · intro k hk
        have := hb1 (k + 1) (by simp; omega)
        have e1 : i + 1 + k = i + (k + 1) := by omega
        have e2 : i2 + 1 + k = i2 + (k + 1) := by omega
        rw [e1, e2]; exact this
      · intro k hk
        have := hb2 k hk
        simp only [List.length_cons] at this
        have e1 : i + 1 + rest.length + k = i + (rest.length + 1) + k := by omega
        have e2 : i2 + 1 + rest.length + 1 + k = i2 + (rest.length + 1) + 1 + k := by omega
        rw [e1, e2]; exact this

/-- An index fetch or match call recorded for ordinal `j` was either in the
trace already or belongs to a readonly segment at ordinal `j`. -/
theorem trace_touch {DFA : Type} (tab : DfaDbTable DFA) (indexId : Nat)
    (schema : Schema) (regexDFA : DFA) (ctx : DbContext) (j : Nat) (e : Event)
    (he : TouchesIndex j e) :
    ∀ (segs : List (ReadableSegment DFA)) (i : Nat) (vec : List Int) (tr : List Event),
      e ∈ (visitSegments tab indexId schema regexDFA ctx segs i vec tr).trace →
      e ∈ tr ∨ ∃ k seg, segs[k]? = some seg ∧ j = i + k ∧ seg.getWritableStore = false := by
  intro segs
  induction segs with
  | nil => intro i vec tr h; left; simpa [visitSegments] using h
  | cons seg rest ih =>
    intro i vec tr h
    have shift : ∀ (v : List Int) (t : List Event),
        e ∈ (visitSegments tab indexId schema regexDFA ctx rest (i + 1) v t).trace →
        e ∈ t ∨ ∃ k s, (seg :: rest)[k]? = some s ∧ j = i + k ∧ s.getWritableStore = false := by
      intro v t ht
      rcases ih (i + 1) v t ht with h1 | ⟨k, s, hs, hj, hro⟩
      · left; exact h1
      · right; exact ⟨k + 1, s, by simpa using hs, by omega, hro⟩
    cases hw : seg.getWritableStore with
    | true =>
      simp only [visitSegments, hw, if_true] at h
      rcases shift _ _ h with h1 | h1
      · simp only [List.mem_append, List.mem_singleton] at h1
        rcases h1 with h1 | h1
        · left; exact h1
        · subst h1; rcases he with he | he <;> exact Event.noConfusion he
      · right; exact h1
    | false =>
      have here : ∀ (evs : List Event), (∀ x ∈ evs, TouchesIndex j x → j = i) →
          e ∈ tr ++ evs →
          e ∈ tr ∨ ∃ k s, (seg :: rest)[k]? = some s ∧ j = i + k ∧ s.getWritableStore = false := by
        intro evs hevs hmem
        rcases List.mem_append.mp hmem with h1 | h1
        · left; exact h1
        · right; exact ⟨0, seg, by simp, by have := hevs e h1 he; omega, hw⟩
      have hev1 : ∀ x ∈ [Event.fetchIndex i], TouchesIndex j x → j = i := by
        intro x hx hxt
        simp only [List.mem_singleton] at hx
        subst hx
        rcases hxt with h1 | h1
        · injection h1 with h1; exact h1.symm
        · exact Event.noConfusion h1
      have hev2 : ∀ x ∈ [Event.fetchIndex i, Event.callMatch i], TouchesIndex j x → j = i := by
        intro x hx hxt
        simp only [List.mem_cons, List.mem_singleton, List.not_mem_nil, or_false] at hx
        rcases hx with hx | hx <;> subst hx <;> rcases hxt with h1 | h1
        · injection h1 with h1; exact h1.symm
        · exact Event.noConfusion h1
        · exact Event.noConfusion h1
        · injection h1 with h1; exact h1.symm
      simp only [visitSegments, hw, Bool.false_eq_true, if_false] at h
      match hidx : seg.m_indices[indexId]? with
      | none => rw [hidx] at h; exact here _ hev1 h
      | some ReadableIndex.other => rw [hidx] at h; exact here _ hev1 h
      | some (ReadableIndex.nestLoudsTrie index) =>
        rw [hidx] at h
        simp only at h
        cases hok : (index.matchRegexAppend regexDFA ctx).1 with
        | false =>
          simp only [hok, Bool.false_eq_true, if_false] at h
          rcases shift _ _ h with h1 | h1
          · rw [List.append_assoc] at h1
            apply here _ _ h1
            intro x hx hxt
            simp only [List.cons_append, List.nil_append, List.mem_cons, List.mem_singleton,
              List.not_mem_nil, or_false] at hx
            rcases hx with hx | hx | hx
            · exact hev2 x (by simp [hx]) hxt
            · exact hev2 x (by simp [hx]) hxt
            · subst hx; rcases hxt with h2 | h2 <;> exact Event.noConfusion h2
          · right; exact h1
        | true =>
          simp only [hok, if_true] at h
          match hbase : tab.m_rowNumVec[i]? with
          | none => rw [hbase] at h; exact here _ hev2 h
          | some baseId =>
            rw [hbase] at h
            simp only at h
            match hc : compactLoop seg baseId
                ((vec ++ (index.matchRegexAppend regexDFA ctx).2).length - vec.length)
                vec.length vec.length (vec ++ (index.matchRegexAppend regexDFA ctx).2) with
            | none => rw [hc] at h; exact here _ hev2 h
            | some (k, vec2) =>
              rw [hc] at h
              simp only at h
              rcases shift _ _ h with h1 | h1
              · exact here _ hev2 h1
              · right; exact h1

/-! ## C5 -/

/-- C5, as the claim states it, fails: `insertedTable` is `plainTable` with a
writable segment of five rows inserted in front, both tables satisfy the row
number base invariant, and the results differ: `[0]` without the writable
segment, `[5]` with it. -/
theorem writable_insert_same_result_counterexample :
    RowBaseInvariant plainTable ∧ RowBaseInvariant insertedTable
      ∧ insertedTable.m_segments
          = writableSegment "wr-0" (List.replicate 5 false) :: plainTable.m_segments
      ∧ (writableSegment "wr-0" (List.replicate 5 false)).getWritableStore = true
      ∧ (indexMatchRegex plainTable 0 () [] exampleCtx).recIdvec = [0]
      ∧ (indexMatchRegex insertedTable 0 () [] exampleCtx).recIdvec = [5]
      ∧ ¬ SameResult (indexMatchRegex plainTable 0 () [] exampleCtx)
          (indexMatchRegex insertedTable 0 () [] exampleCtx) :=
  ⟨by decide, by decide, rfl, rfl, by decide, by decide, by decide⟩

/-- C5, amended. Let a table hold the segments `s1 ++ s2` and a second table,
with the same schema, the segments `s1 ++ w :: s2` with `w` writable, and let
every segment of `s1` and `s2` have the same row number base entry in both
tables. Then `indexMatchRegex` ends with the same outcome and the same result
on both tables, and the run on the second table records neither an index fetch
nor a match call for the ordinal of `w`: the writable segment is skipped and
contributes no ids. -/
theorem writable_segment_is_skipped {DFA : Type} (tab tab2 : DfaDbTable DFA)
    (indexId : Nat) (regexDFA : DFA) (recIdvec : List Int) (ctx : DbContext)
    (s1 s2 : List (ReadableSegment DFA)) (w : ReadableSegment DFA)
    (hschema : tab2.m_schema = tab.m_schema)
    (hsegs : tab.m_segments = s1 ++ s2)
    (hsegs2 : tab2.m_segments = s1 ++ w :: s2)
    (hw : w.getWritableStore = true)
    (hb1 : ∀ k, k < s1.length → tab.m_rowNumVec[k]? = tab2.m_rowNumVec[k]?)
    (hb2 : ∀ k, k < s2.length →
      tab.m_rowNumVec[s1.length + k]? = tab2.m_rowNumVec[s1.length + 1 + k]?) :
    SameResult (indexMatchRegex tab indexId regexDFA recIdvec ctx)
        (indexMatchRegex tab2 indexId regexDFA recIdvec ctx)
      ∧ ∀ e ∈ (indexMatchRegex tab2 indexId regexDFA recIdvec ctx).trace,
          ¬ TouchesIndex s1.length e := by
  have hvisit : ∀ schema : Schema,
      SameResult (visitSegments tab indexId schema regexDFA ctx tab.m_segments 0 [] [])
        (visitSegments tab2 indexId schema regexDFA ctx tab2.m_segments 0 [] []) := by
    intro schema
    rw [hsegs, hsegs2]
    apply visit_insert_writable tab tab2 indexId schema regexDFA ctx w hw s2 s1
    · intro k hk; simpa using hb1 k hk
    · intro k hk; simpa using hb2 k hk
  have htrace : ∀ schema : Schema,
      ∀ e ∈ (visitSegments tab2 indexId schema regexDFA ctx tab2.m_segments 0 [] []).trace,
        ¬ TouchesIndex s1.length e := by
    intro schema e he ht
    rcases trace_touch tab2 indexId schema regexDFA ctx s1.length e ht _ 0 [] [] he with h | h
    · simp at h
    · obtain ⟨k, seg, hs, hj, hro⟩ := h
      have hk : k = s1.length := by omega
      subst hk
      rw [hsegs2, List.getElem?_append_right (le_refl _)] at hs
      simp at hs
      subst hs
      rw [hw] at hro
      exact Bool.noConfusion hro
  unfold indexMatchRegex
  rw [hschema]
  split
  · exact ⟨⟨rfl, rfl⟩, by simp⟩
  · split
    · exact ⟨⟨rfl, rfl⟩, by simp⟩
    · split
      · exact ⟨⟨rfl, rfl⟩, by simp⟩
      · split
        · exact ⟨⟨rfl, rfl⟩, by simp⟩
        · split
          · exact ⟨⟨rfl, rfl⟩, by simp⟩
          · exact ⟨hvisit _, htrace _⟩

/-- Witness for C5 (amended): a writable segment without rows inserted in
front of `plainTable`. -/
theorem writable_segment_is_skipped_witness :
    emptyInsertedTable.m_schema = plainTable.m_schema
      ∧ plainTable.m_segments = [] ++ [trieSegment "rd-0" true [0] [false, false, false]]
      ∧ emptyInsertedTable.m_segments
          = [] ++ writableSegment "wr-0" [] :: [trieSegment "rd-0" true [0] [false, false, false]]
      ∧ RowBaseInvariant plainTable ∧ RowBaseInvariant emptyInsertedTable
      ∧ SameResult (indexMatchRegex plainTable 0 () [9] exampleCtx)
          (indexMatchRegex emptyInsertedTable 0 () [9] exampleCtx)
      ∧ (indexMatchRegex emptyInsertedTable 0 () [9] exampleCtx).recIdvec = [0] :=
  ⟨rfl, rfl, rfl, by decide, by decide,
    (writable_segment_is_skipped plainTable emptyInsertedTable 0 () [9] exampleCtx []
      [trieSegment "rd-0" true [0] [false, false, false]] (writableSegment "wr-0" [])
      rfl rfl rfl rfl (by decide) (by decide)).1,
    by decide⟩

/-! ## C6 -/

/-- C6. For every `indexId >= schema.indexCount`, every table, automaton and
accumulator, the call throws the invalid-index-id error; the accumulator is
untouched and the trace is empty: no segment's index is fetched and no match
is invoked. -/
theorem invalid_index_id_fails_first {DFA : Type} (tab : DfaDbTable DFA)
    (indexId : Nat) (regexDFA : DFA) (recIdvec : List Int) (ctx : DbContext)
    (h : indexId ≥ tab.m_schema.getIndexNum) :
    indexMatchRegex tab indexId regexDFA recIdvec ctx
      = ⟨Outcome.thrown (Fault.invalidIndexId indexId tab.m_schema.getIndexNum), recIdvec, []⟩ := by
  unfold indexMatchRegex
  rw [if_pos h]

/-- Witness for C6: the index id equal to the index count of the scenario
table. -/
theorem invalid_index_id_fails_first_witness :
    (1 : Nat) ≥ scenarioTable.m_schema.getIndexNum
      ∧ indexMatchRegex scenarioTable 1 () [42] exampleCtx
          = ⟨Outcome.thrown (Fault.invalidIndexId 1 1), [42], []⟩ :=
  ⟨by decide, invalid_index_id_fails_first scenarioTable 1 () [42] exampleCtx (by decide)⟩

/-! ## The outcomes of the segment loop -/

/-- The segment loop ends by returning `true`, by the trie logic error, or in
an out-of-range subscript; it throws none of the precondition errors. -/
theorem visit_outcome_cases {DFA : Type} (tab : DfaDbTable DFA) (indexId : Nat)
    (schema : Schema) (regexDFA : DFA) (ctx : DbContext) :
    ∀ (segs : List (ReadableSegment DFA)) (i : Nat) (vec : List Int) (tr : List Event),
      (visitSegments tab indexId schema regexDFA ctx segs i vec tr).outcome
          = Outcome.returned true
        ∨ (visitSegments tab indexId schema regexDFA ctx segs i vec tr).outcome
          = Outcome.thrown Fault.notNestLoudsTrieIndex
        ∨ (visitSegments tab indexId schema regexDFA ctx segs i vec tr).outcome
          = Outcome.undefined := by
  intro segs
  induction segs with
  | nil => intro i vec tr; left; rfl
  | cons seg rest ih =>
    intro i vec tr
    cases hw : seg.getWritableStore with
    | true =>
      simp only [visitSegments, hw, if_true]
      exact ih _ _ _
    | false =>
      simp only [visitSegments, hw, Bool.false_eq_true, if_false]
      match hidx : seg.m_indices[indexId]? with
      | none => right; right; rfl
      | some ReadableIndex.other => right; left; rfl
      | some (ReadableIndex.nestLoudsTrie index) =>
        simp only
        cases hok : (index.matchRegexAppend regexDFA ctx).1 with
        | false =>
          simp only [Bool.false_eq_true, if_false]
          exact ih _ _ _
        | true =>
          simp only [if_true]
          match hbase : tab.m_rowNumVec[i]? with
          | none => right; right; rfl
          | some baseId =>
            simp only
            match hc : compactLoop seg baseId
                ((vec ++ (index.matchRegexAppend regexDFA ctx).2).length - vec.length)
                vec.length vec.length (vec ++ (index.matchRegexAppend regexDFA ctx).2) with
            | none => right; right; rfl
            | some (k, vec2) => exact ih _ _ _

/-- On a well-formed table in which some readonly segment does not hold a trie
index, the segment loop throws the logic error of line 105. -/
theorem visit_throws_without_trie {DFA : Type} (tab : DfaDbTable DFA) (indexId : Nat)
    (schema : Schema) (regexDFA : DFA) (ctx : DbContext) :
    ∀ (segs : List (ReadableSegment DFA)) (i : Nat) (vec : List Int) (tr : List Event),
      (∀ seg ∈ segs, SegmentInRange indexId regexDFA ctx seg) →
      i + segs.length ≤ tab.m_rowNumVec.length →
      ¬ AllReadonlyTrie indexId segs →
      (visitSegments tab indexId schema regexDFA ctx segs i vec tr).outcome
        = Outcome.thrown Fault.notNestLoudsTrieIndex := by
  intro segs
  induction segs with
  | nil =>
    intro i vec tr _ _ hnot
    exact absurd (fun s hs => absurd hs (List.not_mem_nil s)) hnot
  | cons seg rest ih =>
    intro i vec tr hin hlen hnot
    have hin2 : ∀ s ∈ rest, SegmentInRange indexId regexDFA ctx s :=
      fun s hs => hin s (List.mem_cons_of_mem _ hs)
    have hlen2 : i + 1 + rest.length ≤ tab.m_rowNumVec.length := by
      simp at hlen; omega
    have hrest : (seg.getWritableStore = false → (trieIndexAt indexId seg).isSome = true) →
        ¬ AllReadonlyTrie indexId rest := by
      intro hhead hall
      apply hnot
      intro s hs
      rcases List.mem_cons.mp hs with h | h
      · subst h; exact hhead
      · exact hall s h
    cases hw : seg.getWritableStore with
    | true =>
      simp only [visitSegments, hw, if_true]
      exact ih _ _ _ hin2 hlen2 (hrest (fun h => by rw [hw] at h; exact Bool.noConfusion h))
    | false =>
      cases ht : trieIndexAt indexId seg with
      | none =>
        have hlt := (hin seg (List.mem_cons_self _ _) hw).1
        have hget : seg.m_indices[indexId]? = some ReadableIndex.other := by
          rw [List.getElem?_eq_getElem hlt]
          unfold trieIndexAt at ht
          rw [List.getElem?_eq_getElem hlt] at ht
          cases hobj : seg.m_indices[indexId] with
          | other => rfl
          | nestLoudsTrie index => rw [hobj] at ht; simp at ht
        simp only [visitSegments, hw, hget, Bool.false_eq_true, if_false]
      | some index =>
        have hget := trieIndexAt_eq_some indexId seg index ht
        have hnr := hrest (fun _ => by rw [ht]; rfl)
        have hids : matchedIds indexId regexDFA ctx seg
            = (index.matchRegexAppend regexDFA ctx).2 := by
          simp [matchedIds, ht]
        have hflag : matchFlag indexId regexDFA ctx seg
            = some (index.matchRegexAppend regexDFA ctx).1 := by
          simp [matchFlag, ht]
        cases hok : (index.matchRegexAppend regexDFA ctx).1 with
        | true =>
          have hi : i < tab.m_rowNumVec.length := by simp at hlen; omega
          have hbase : tab.m_rowNumVec[i]? = some (tab.m_rowNumVec.getD i 0) := by
            rw [List.getD_eq_getElem?_getD, List.getElem?_eq_getElem hi]; simp
          have hrange := (hin seg (List.mem_cons_self _ _) hw).2 (by rw [hflag, hok])
          rw [hids] at hrange
          obtain ⟨k, vec2, hc, _⟩ := compactLoop_appended seg (tab.m_rowNumVec.getD i 0) vec
            (index.matchRegexAppend regexDFA ctx).2 hrange
          simp only [visitSegments, hw, hget, hok, hbase, hc, if_true, Bool.false_eq_true,
            if_false]
          exact ih _ _ _ hin2 hlen2 hnr
        | false =>
          simp only [visitSegments, hw, hget, hok, Bool.false_eq_true, if_false]
          exact ih _ _ _ hin2 hlen2 hnr

/-! ## C7 -/

/-- C7, as the claim states it, fails for `columnNum = 0`: the only index of
`emptyIndexTable` is valid and has no column, so its `columnNum` differs from
1, yet the check of line 82 lets it pass and the call does not end in the
composite-index error (it goes on to read column 0, which does not exist). -/
theorem composite_check_counterexample :
    emptyIndexTable.m_schema.getIndexSchema 0 = some ⟨"empty", []⟩
      ∧ (⟨"empty", []⟩ : Schema).columnNum ≠ 1
      ∧ ¬ ((⟨"empty", []⟩ : Schema).columnNum > 1)
      ∧ (indexMatchRegex emptyIndexTable 0 () [] exampleCtx).outcome = Outcome.undefined
      ∧ (indexMatchRegex emptyIndexTable 0 () [] exampleCtx).outcome
          ≠ Outcome.thrown (Fault.compositeIndex 0 "empty") := by
  decide

/-- C7, amended. For every valid `indexId` whose index definition has
`columnNum > 1`, the call throws the composite-index error naming the index,
with the accumulator untouched and an empty trace (no segment is touched); and
the call ends in a composite-index error only then: the check of line 82 is
passed exactly when `columnNum <= 1`. -/
theorem composite_index_fails {DFA : Type} (tab : DfaDbTable DFA)
    (indexId : Nat) (schema : Schema) (regexDFA : DFA) (recIdvec : List Int) (ctx : DbContext)
    (hschema : tab.m_schema.getIndexSchema indexId = some schema) :
    (schema.columnNum > 1 →
        indexMatchRegex tab indexId regexDFA recIdvec ctx
          = ⟨Outcome.thrown (Fault.compositeIndex indexId schema.m_name), recIdvec, []⟩)
      ∧ ((∃ id name, (indexMatchRegex tab indexId regexDFA recIdvec ctx).outcome
            = Outcome.thrown (Fault.compositeIndex id name)) ↔ schema.columnNum > 1) := by
  have hlt : ¬ (indexId ≥ tab.m_schema.getIndexNum) := by
    unfold SchemaConfig.getIndexSchema at hschema
    unfold SchemaConfig.getIndexNum
    intro hge
    rw [List.getElem?_eq_none hge] at hschema
    exact Option.noConfusion hschema
  have hpos : schema.columnNum > 1 →
      indexMatchRegex tab indexId regexDFA recIdvec ctx
        = ⟨Outcome.thrown (Fault.compositeIndex indexId schema.m_name), recIdvec, []⟩ := by
    intro h
    unfold indexMatchRegex
    rw [if_neg hlt, hschema]
    simp only [if_pos h]
  refine ⟨hpos, ?_, ?_⟩
  · rintro ⟨id, name, h⟩
    by_contra hle
    unfold indexMatchRegex at h
    rw [if_neg hlt, hschema] at h
    simp only [if_neg hle] at h
    match hcm : schema.getColumnMeta 0 with
    | none => rw [hcm] at h; exact Outcome.noConfusion h
    | some colmeta =>
      rw [hcm] at h
      simp only at h
      cases hs : colmeta.isString with
      | false =>
        simp only [hs, Bool.not_false, if_true] at h
        injection h with h
        exact Fault.noConfusion h
      | true =>
        simp only [hs, Bool.not_true, Bool.false_eq_true, if_false] at h
        rcases visit_outcome_cases tab indexId schema regexDFA ctx tab.m_segments 0 [] []
          with h1 | h1 | h1 <;> rw [h1] at h
        · exact Outcome.noConfusion h
        · injection h with h; exact Fault.noConfusion h
        · exact Outcome.noConfusion h
  · intro h
    exact ⟨indexId, schema.m_name, by rw [hpos h]⟩

/-- Witness for C7 (amended): the two-column index of `compositeTable`. -/
theorem composite_index_fails_witness :
    compositeTable.m_schema.getIndexSchema 0 = some ⟨"pair", [⟨true⟩, ⟨true⟩]⟩
      ∧ (⟨"pair", [⟨true⟩, ⟨true⟩]⟩ : Schema).columnNum > 1
      ∧ indexMatchRegex compositeTable 0 () [42] exampleCtx
          = ⟨Outcome.thrown (Fault.compositeIndex 0 "pair"), [42], []⟩ :=
  ⟨by decide, by decide,
    (composite_index_fails compositeTable 0 ⟨"pair", [⟨true⟩, ⟨true⟩]⟩ () [42] exampleCtx
      (by decide)).1 (by decide)⟩

/-! ## C8 -/

/-- C8. For every valid `indexId` whose index has exactly one column, which is
not string-typed, the call throws the non-string-index error naming the index,
with the accumulator untouched and an empty trace (no segment is touched). That
error differs from the invalid-index-id and the composite-index errors. The
checks are made in the order index id, column count, string type: an invalid
index id gives the invalid-index-id error whatever the rest of the table, and
an index with more than one column gives the composite-index error whatever
the type of its columns. -/
theorem non_string_index_fails {DFA : Type} (tab : DfaDbTable DFA)
    (indexId : Nat) (schema : Schema) (c : ColumnMeta) (regexDFA : DFA) (recIdvec : List Int)
    (ctx : DbContext)
    (hschema : tab.m_schema.getIndexSchema indexId = some schema)
    (hcols : schema.columns = [c]) (hstr : c.isString = false) :
    indexMatchRegex tab indexId regexDFA recIdvec ctx
        = ⟨Outcome.thrown (Fault.nonStringIndex indexId schema.m_name), recIdvec, []⟩
      ∧ (∀ a b, Fault.nonStringIndex indexId schema.m_name ≠ Fault.invalidIndexId a b)
      ∧ (∀ a b, Fault.nonStringIndex indexId schema.m_name ≠ Fault.compositeIndex a b)
      ∧ (∀ (tab2 : DfaDbTable DFA) (id2 : Nat) (vec2 : List Int),
          id2 ≥ tab2.m_schema.getIndexNum →
          (indexMatchRegex tab2 id2 regexDFA vec2 ctx).outcome
            = Outcome.thrown (Fault.invalidIndexId id2 tab2.m_schema.getIndexNum))
      ∧ (∀ (tab2 : DfaDbTable DFA) (id2 : Nat) (schema2 : Schema) (vec2 : List Int),
          tab2.m_schema.getIndexSchema id2 = some schema2 → schema2.columnNum > 1 →
          (indexMatchRegex tab2 id2 regexDFA vec2 ctx).outcome
            = Outcome.thrown (Fault.compositeIndex id2 schema2.m_name)) := by
  have hlt : ¬ (indexId ≥ tab.m_schema.getIndexNum) := by
    unfold SchemaConfig.getIndexSchema at hschema
    unfold SchemaConfig.getIndexNum
    intro hge
    rw [List.getElem?_eq_none hge] at hschema
    exact Option.noConfusion hschema
  have hcn : ¬ (schema.columnNum > 1) := by
    unfold Schema.columnNum; rw [hcols]; simp
  have hcm : schema.getColumnMeta 0 = some c := by
    unfold Schema.getColumnMeta; rw [hcols]; rfl
  refine ⟨?_, fun a b h => Fault.noConfusion h, fun a b h => Fault.noConfusion h, ?_, ?_⟩
  · unfold indexMatchRegex
    rw [if_neg hlt, hschema]
    simp only [if_neg hcn, hcm, hstr, Bool.not_false, if_true]
  · intro tab2 id2 vec2 h
    unfold indexMatchRegex
    rw [if_pos h]
  · intro tab2 id2 schema2 vec2 hs hc
    have hlt2 : ¬ (id2 ≥ tab2.m_schema.getIndexNum) := by
      unfold SchemaConfig.getIndexSchema at hs
      unfold SchemaConfig.getIndexNum
      intro hge
      rw [List.getElem?_eq_none hge] at hs
      exact Option.noConfusion hs
    unfold indexMatchRegex
    rw [if_neg hlt2, hs]
    simp only [if_pos hc]

/-- Witness for C8: the single integer column of `intIndexTable`; and the
composite index of `intPairTable`, whose first column is not string-typed,
fails the column count check, not the string check. -/
theorem non_string_index_fails_witness :
    intIndexTable.m_schema.getIndexSchema 0 = some ⟨"age", [⟨false⟩]⟩
      ∧ indexMatchRegex intIndexTable 0 () [42] exampleCtx
          = ⟨Outcome.thrown (Fault.nonStringIndex 0 "age"), [42], []⟩
      ∧ (indexMatchRegex intPairTable 0 () [42] exampleCtx).outcome
          = Outcome.thrown (Fault.compositeIndex 0 "agepair") :=
  ⟨by decide,
    (non_string_index_fails intIndexTable 0 ⟨"age", [⟨false⟩]⟩ ⟨false⟩ () [42] exampleCtx
      (by decide) rfl rfl).1,
    (non_string_index_fails intIndexTable 0 ⟨"age", [⟨false⟩]⟩ ⟨false⟩ () [42] exampleCtx
      (by decide) rfl rfl).2.2.2.2 intPairTable 0 ⟨"agepair", [⟨false⟩, ⟨true⟩]⟩ [42]
      (by decide) (by decide)⟩

/-! ## C9 -/

/-- C9. When the three preconditions pass and the table is well-formed, the
call throws the logic error of line 105 if and only if some readonly segment's
index object at `indexId` is not the trie variant. Writable segments play no
part: when every readonly segment holds a trie index the call returns `true`,
whatever index objects the writable segments hold. -/
theorem logic_error_iff_readonly_without_trie {DFA : Type} (tab : DfaDbTable DFA)
    (indexId : Nat) (schema : Schema) (regexDFA : DFA) (recIdvec : List Int) (ctx : DbContext)
    (hidx : SingleStringIndex tab indexId schema)
    (hwf : WellFormed tab indexId regexDFA ctx) :
    ((indexMatchRegex tab indexId regexDFA recIdvec ctx).outcome
          = Outcome.thrown Fault.notNestLoudsTrieIndex
        ↔ ∃ seg ∈ tab.m_segments, seg.getWritableStore = false
            ∧ seg.m_indices[indexId]? = some ReadableIndex.other)
      ∧ (AllReadonlyTrie indexId tab.m_segments →
          (indexMatchRegex tab indexId regexDFA recIdvec ctx).outcome = Outcome.returned true) := by
  have hall : AllReadonlyTrie indexId tab.m_segments →
      (indexMatchRegex tab indexId regexDFA recIdvec ctx).outcome = Outcome.returned true := by
    intro htrie
    rw [indexMatchRegex_run tab indexId schema regexDFA recIdvec ctx hidx hwf htrie]
  have hnot : ¬ AllReadonlyTrie indexId tab.m_segments →
      (indexMatchRegex tab indexId regexDFA recIdvec ctx).outcome
        = Outcome.thrown Fault.notNestLoudsTrieIndex := by
    intro h
    rw [indexMatchRegex_eq_visit tab indexId schema regexDFA recIdvec ctx hidx]
    exact visit_throws_without_trie tab indexId schema regexDFA ctx tab.m_segments 0 [] []
      hwf.2 (by simpa using hwf.1) h
  refine ⟨⟨?_, ?_⟩, hall⟩
  · intro hthrown
    by_contra hno
    have htrie : AllReadonlyTrie indexId tab.m_segments := by
      intro seg hseg hw
      cases ht : trieIndexAt indexId seg with
      | some _ => rfl
      | none =>
        exfalso
        apply hno
        refine ⟨seg, hseg, hw, ?_⟩
        have hlt := (hwf.2 seg hseg hw).1
        rw [List.getElem?_eq_getElem hlt]
        unfold trieIndexAt at ht
        rw [List.getElem?_eq_getElem hlt] at ht
        cases hobj : seg.m_indices[indexId] with
        | other => rfl
        | nestLoudsTrie index => rw [hobj] at ht; simp at ht
    rw [hall htrie] at hthrown
    exact Outcome.noConfusion hthrown
  · rintro ⟨seg, hseg, hw, hother⟩
    apply hnot
    intro htrie
    have := htrie seg hseg hw
    unfold trieIndexAt at this
    rw [hother] at this
    simp at this

/-- Witness for C9: `mismatchTable` has a readonly segment without a trie index
and the call throws; `emptyResultTable` has a writable segment without a trie
index and the call returns `true`. -/
theorem logic_error_iff_readonly_without_trie_witness :
    SingleStringIndex mismatchTable 0 ⟨"name", [⟨true⟩]⟩
      ∧ WellFormed mismatchTable 0 () exampleCtx
      ∧ (indexMatchRegex mismatchTable 0 () [] exampleCtx).outcome
          = Outcome.thrown Fault.notNestLoudsTrieIndex
      ∧ SingleStringIndex emptyResultTable 0 ⟨"name", [⟨true⟩]⟩
      ∧ WellFormed emptyResultTable 0 () exampleCtx
      ∧ (writableSegment "wr-0" [false]).m_indices[0]? = some ReadableIndex.other
      ∧ (indexMatchRegex emptyResultTable 0 () [] exampleCtx).outcome = Outcome.returned true :=
  ⟨by decide, by decide,
    (logic_error_iff_readonly_without_trie mismatchTable 0 ⟨"name", [⟨true⟩]⟩ () [] exampleCtx
      (by decide) (by decide)).1.mpr
      ⟨⟨false, [ReadableIndex.other], fun p => p, [false], "rd-1"⟩, by simp [mismatchTable],
        rfl, rfl⟩,
    by decide, by decide, rfl,
    (logic_error_iff_readonly_without_trie emptyResultTable 0 ⟨"name", [⟨true⟩]⟩ () []
      exampleCtx (by decide) (by decide)).2 (by decide)⟩

/-! ## C10 -/

theorem blocksFrom_nil_of_exhausted {DFA : Type} (tab : DfaDbTable DFA) (indexId : Nat)
    (regexDFA : DFA) (ctx : DbContext) :
    ∀ (segs : List (ReadableSegment DFA)) (i : Nat),
      AllWritableOrExhausted indexId regexDFA ctx segs →
      blocksFrom tab indexId regexDFA ctx segs i = [] := by
  intro segs
  induction segs with
  | nil => intro i _; rfl
  | cons seg rest ih =>
    intro i h
    have ih2 := ih (i + 1) (fun s hs => h s (List.mem_cons_of_mem _ hs))
    rcases h seg (List.mem_cons_self _ _) with hw | ⟨hflag, hids⟩
    · simp [blocksFrom, segmentBlock, hw, ih2]
    · cases hw : seg.getWritableStore <;> simp [blocksFrom, segmentBlock, hw, hflag, hids, ih2]

theorem traceFrom_visits {DFA : Type} (indexId : Nat) (schema : Schema) (regexDFA : DFA)
    (ctx : DbContext) :
    ∀ (segs : List (ReadableSegment DFA)) (i k : Nat), k < segs.length →
      Event.warnWritable (i + k) ∈ traceFrom indexId schema regexDFA ctx segs i
        ∨ Event.fetchIndex (i + k) ∈ traceFrom indexId schema regexDFA ctx segs i := by
  intro segs
  induction segs with
  | nil => intro i k hk; simp at hk
  | cons seg rest ih =>
    intro i k hk
    cases k with
    | zero =>
      simp only [traceFrom, segmentTrace, Nat.add_zero, List.mem_append]
      cases hw : seg.getWritableStore with
      | true => left; left; simp
      | false =>
        right; left
        match hflag : matchFlag indexId regexDFA ctx seg with
        | some true => simp
        | some false => simp
        | none => simp
    | succ n =>
      have := ih (i + 1) n (by simp at hk; omega)
      have e : i + (n + 1) = i + 1 + n := by omega
      rw [e]
      simp only [traceFrom, List.mem_append]
      rcases this with h | h
      · left; right; exact h
      · right; right; exact h

/-- C10, as the claim states it, fails twice. In `mismatchTable` the three
preconditions pass and the call throws the logic error of line 105 instead of
returning `true`. In `junkTable` the only segment reports budget exhaustion,
and the result is not empty: it holds the 0 the failed match appended. -/
theorem always_success_counterexample :
    SingleStringIndex mismatchTable 0 ⟨"name", [⟨true⟩]⟩
      ∧ (indexMatchRegex mismatchTable 0 () [] exampleCtx).outcome
          = Outcome.thrown Fault.notNestLoudsTrieIndex
      ∧ (indexMatchRegex mismatchTable 0 () [] exampleCtx).outcome ≠ Outcome.returned true
      ∧ SingleStringIndex junkTable 0 ⟨"name", [⟨true⟩]⟩
      ∧ (∀ seg ∈ junkTable.m_segments, seg.getWritableStore = true
          ∨ matchFlag 0 () exampleCtx seg = some false)
      ∧ (indexMatchRegex junkTable 0 () [] exampleCtx).outcome = Outcome.returned true
      ∧ (indexMatchRegex junkTable 0 () [] exampleCtx).recIdvec = [0]
      ∧ (indexMatchRegex junkTable 0 () [] exampleCtx).recIdvec ≠ [] := by
  decide

/-- C10, amended. When the three preconditions pass, the table is well-formed
and every readonly segment holds a trie index at `indexId`, the call returns
`true` after having visited every segment: for each ordinal the trace holds
the writable-segment diagnostic or the index fetch. In particular, when every
segment is writable or reports budget exhaustion without having appended
anything, the call returns `true` with an empty result. -/
theorem success_when_every_readonly_is_trie {DFA : Type} (tab : DfaDbTable DFA)
    (indexId : Nat) (schema : Schema) (regexDFA : DFA) (recIdvec : List Int) (ctx : DbContext)
    (hidx : SingleStringIndex tab indexId schema)
    (hwf : WellFormed tab indexId regexDFA ctx)
    (htrie : AllReadonlyTrie indexId tab.m_segments) :
    (indexMatchRegex tab indexId regexDFA recIdvec ctx).outcome = Outcome.returned true
      ∧ (∀ i, i < tab.m_segments.length →
          Event.warnWritable i ∈ (indexMatchRegex tab indexId regexDFA recIdvec ctx).trace
            ∨ Event.fetchIndex i ∈ (indexMatchRegex tab indexId regexDFA recIdvec ctx).trace)
      ∧ (AllWritableOrExhausted indexId regexDFA ctx tab.m_segments →
          (indexMatchRegex tab indexId regexDFA recIdvec ctx).recIdvec = []) := by
  have hrun := indexMatchRegex_run tab indexId schema regexDFA recIdvec ctx hidx hwf htrie
  refine ⟨by rw [hrun], ?_, ?_⟩
  · intro i hi
    rw [hrun]
    simpa using traceFrom_visits indexId schema regexDFA ctx tab.m_segments 0 i hi
  · intro h
    rw [hrun]
    exact blocksFrom_nil_of_exhausted tab indexId regexDFA ctx _ 0 h

/-- Witness for C10 (amended): in `emptyResultTable` one segment is writable and
the other reports budget exhaustion; the call returns `true` with an empty
result, from a stale accumulator. -/
theorem success_when_every_readonly_is_trie_witness :
    SingleStringIndex emptyResultTable 0 ⟨"name", [⟨true⟩]⟩
      ∧ WellFormed emptyResultTable 0 () exampleCtx
      ∧ AllReadonlyTrie 0 emptyResultTable.m_segments
      ∧ AllWritableOrExhausted 0 () exampleCtx emptyResultTable.m_segments
      ∧ (indexMatchRegex emptyResultTable 0 () [42] exampleCtx).outcome = Outcome.returned true
      ∧ (indexMatchRegex emptyResultTable 0 () [42] exampleCtx).recIdvec = [] :=
  ⟨by decide, by decide, by decide, by decide,
    (success_when_every_readonly_is_trie emptyResultTable 0 ⟨"name", [⟨true⟩]⟩ () [42]
      exampleCtx (by decide) (by decide) (by decide)).1,
    (success_when_every_readonly_is_trie emptyResultTable 0 ⟨"name", [⟨true⟩]⟩ () [42]
      exampleCtx (by decide) (by decide) (by decide)).2.2 (by decide)⟩

/-! ## C11 -/

/-- The loop over a prefix of segments that are in range and hold trie indices
leaves the rest of the loop to run from the accumulator extended by the blocks
of the prefix. -/
theorem visitSegments_prefix {DFA : Type} (tab : DfaDbTable DFA) (indexId : Nat)
    (schema : Schema) (regexDFA : DFA) (ctx : DbContext) (rest : List (ReadableSegment DFA)) :
    ∀ (s1 : List (ReadableSegment DFA)) (i : Nat) (vec : List Int) (tr : List Event),
      (∀ seg ∈ s1, SegmentInRange indexId regexDFA ctx seg) →
      i + s1.length ≤ tab.m_rowNumVec.length →
      AllReadonlyTrie indexId s1 →
      visitSegments tab indexId schema regexDFA ctx (s1 ++ rest) i vec tr
        = visitSegments tab indexId schema regexDFA ctx rest (i + s1.length)
            (vec ++ blocksFrom tab indexId regexDFA ctx s1 i)
            (tr ++ traceFrom indexId schema regexDFA ctx s1 i) := by
  intro s1
  induction s1 with
  | nil => intro i vec tr _ _ _; simp [blocksFrom, traceFrom]
  | cons seg s1 ih =>
    intro i vec tr hin hlen htrie
    have hin2 : ∀ s ∈ s1, SegmentInRange indexId regexDFA ctx s :=
      fun s hs => hin s (List.mem_cons_of_mem _ hs)
    have htrie2 : AllReadonlyTrie indexId s1 :=
      fun s hs => htrie s (List.mem_cons_of_mem _ hs)
    have hlen2 : i + 1 + s1.length ≤ tab.m_rowNumVec.length := by
      simp at hlen; omega
    have e : i + 1 + s1.length = i + (s1.length + 1) := by omega
    cases hw : seg.getWritableStore with
    | true =>
      simp only [List.cons_append, visitSegments, hw, if_true, blocksFrom, traceFrom,
        segmentBlock, segmentTrace, List.length_cons]
      rw [show s1.append rest = s1 ++ rest from rfl, ih (i + 1) vec _ hin2 hlen2 htrie2, e]
      simp
    | false =>
      have hsome := htrie seg (List.mem_cons_self _ _) hw
      obtain ⟨index, hidx⟩ := Option.isSome_iff_exists.mp hsome
      have hget := trieIndexAt_eq_some indexId seg index hidx
      have hids : matchedIds indexId regexDFA ctx seg = (index.matchRegexAppend regexDFA ctx).2 := by
        simp [matchedIds, hidx]
      have hflag : matchFlag indexId regexDFA ctx seg
          = some (index.matchRegexAppend regexDFA ctx).1 := by
        simp [matchFlag, hidx]
      cases hok : (index.matchRegexAppend regexDFA ctx).1 with
      | true =>
        have hi : i < tab.m_rowNumVec.length := by simp at hlen; omega
        have hbase : tab.m_rowNumVec[i]? = some (tab.m_rowNumVec.getD i 0) := by
          rw [List.getD_eq_getElem?_getD, List.getElem?_eq_getElem hi]; simp
        have hrange := (hin seg (List.mem_cons_self _ _) hw).2 (by rw [hflag, hok])
        rw [hids] at hrange
        obtain ⟨k, vec2, hc, htake⟩ := compactLoop_appended seg (tab.m_rowNumVec.getD i 0) vec
          (index.matchRegexAppend regexDFA ctx).2 hrange
        simp only [List.cons_append, visitSegments, hw, hget, hok, hbase, hc, if_true, blocksFrom,
          traceFrom, segmentBlock, segmentTrace, hflag, hids, Bool.false_eq_true, if_false,
          List.length_cons]
        rw [htake, show s1.append rest = s1 ++ rest from rfl, ih (i + 1) _ _ hin2 hlen2 htrie2, e]
        simp
      | false =>
        simp only [List.cons_append, visitSegments, hw, hget, hok, blocksFrom, traceFrom,
          segmentBlock, segmentTrace, hflag, hids, Bool.false_eq_true, if_false,
          List.length_cons]
        rw [show s1.append rest = s1 ++ rest from rfl, ih (i + 1) _ _ hin2 hlen2 htrie2, e]
        simp

/-- C11, as the claim states it, fails for the schema/backend mismatch: in
`mismatchTable` the call clears the caller's `[42]`, appends row id 0 for
segment 0 and then throws the logic error at segment 1, leaving `[0]`. -/
theorem fatal_fault_leaves_sink_counterexample :
    (indexMatchRegex mismatchTable 0 () [42] exampleCtx).outcome
        = Outcome.thrown Fault.notNestLoudsTrieIndex
      ∧ (indexMatchRegex mismatchTable 0 () [42] exampleCtx).recIdvec = [0]
      ∧ (indexMatchRegex mismatchTable 0 () [42] exampleCtx).recIdvec ≠ [42] := by
  decide

/-- C11, amended. A call that ends in one of the three precondition faults
(invalid index id, composite index, non-string index) leaves the caller's
result sink as it was before the call, with an empty trace. A call that ends in
the schema/backend mismatch found at a segment leaves the sink cleared and then
filled with the blocks of the segments visited before that segment. -/
theorem fatal_fault_sink {DFA : Type} (tab : DfaDbTable DFA)
    (indexId : Nat) (regexDFA : DFA) (recIdvec : List Int) (ctx : DbContext) :
    (∀ f, (indexMatchRegex tab indexId regexDFA recIdvec ctx).outcome = Outcome.thrown f →
        f.isPrecondition = true →
        (indexMatchRegex tab indexId regexDFA recIdvec ctx).recIdvec = recIdvec
          ∧ (indexMatchRegex tab indexId regexDFA recIdvec ctx).trace = [])
      ∧ (∀ (schema : Schema) (s1 s2 : List (ReadableSegment DFA)) (seg : ReadableSegment DFA),
          SingleStringIndex tab indexId schema →
          WellFormed tab indexId regexDFA ctx →
          tab.m_segments = s1 ++ seg :: s2 →
          AllReadonlyTrie indexId s1 →
          seg.getWritableStore = false →
          seg.m_indices[indexId]? = some ReadableIndex.other →
          indexMatchRegex tab indexId regexDFA recIdvec ctx
            = ⟨Outcome.thrown Fault.notNestLoudsTrieIndex,
                blocksFrom tab indexId regexDFA ctx s1 0,
                traceFrom indexId schema regexDFA ctx s1 0 ++ [Event.fetchIndex s1.length]⟩) := by
  constructor
  · intro f hf hpre
    unfold indexMatchRegex at hf ⊢
    split
    · exact ⟨rfl, rfl⟩
    · rename_i hlt
      rw [if_neg hlt] at hf
      split
      · exact ⟨rfl, rfl⟩
      · rename_i schema hs
        rw [hs] at hf
        simp only at hf
        split
        · exact ⟨rfl, rfl⟩
        · rename_i hcn
          rw [if_neg hcn] at hf
          split
          · exact ⟨rfl, rfl⟩
          · rename_i colmeta hcm
            rw [hcm] at hf
            simp only at hf
            split
            · exact ⟨rfl, rfl⟩
            · rename_i hstr
              rw [if_neg hstr] at hf
              exfalso
              rcases visit_outcome_cases tab indexId schema regexDFA ctx tab.m_segments 0 [] []
                with h1 | h1 | h1 <;> rw [h1] at hf
              · exact Outcome.noConfusion hf
              · injection hf with hf
                subst hf
                exact Bool.noConfusion hpre
              · exact Outcome.noConfusion hf
  · intro schema s1 s2 seg hidx hwf hsegs htrie hro hother
    have hin : ∀ s ∈ s1, SegmentInRange indexId regexDFA ctx s := by
      intro s hs
      apply hwf.2
      rw [hsegs]
      exact List.mem_append_left _ hs
    have hlen : 0 + s1.length ≤ tab.m_rowNumVec.length := by
      have := hwf.1
      rw [hsegs] at this
      simp at this
      omega
    rw [indexMatchRegex_eq_visit tab indexId schema regexDFA recIdvec ctx hidx, hsegs,
      visitSegments_prefix tab indexId schema regexDFA ctx (seg :: s2) s1 0 [] [] hin hlen htrie]
    simp [visitSegments, hro, hother]

/-- Witness for C11 (amended): the composite-index fault leaves `[42]` in the
sink; the mismatch at segment 1 of `mismatchTable` leaves the block of
segment 0. -/
theorem fatal_fault_sink_witness :
    (indexMatchRegex compositeTable 0 () [42] exampleCtx).outcome
        = Outcome.thrown (Fault.compositeIndex 0 "pair")
      ∧ (indexMatchRegex compositeTable 0 () [42] exampleCtx).recIdvec = [42]
      ∧ indexMatchRegex mismatchTable 0 () [42] exampleCtx
          = ⟨Outcome.thrown Fault.notNestLoudsTrieIndex, [0],
              [Event.fetchIndex 0, Event.callMatch 0, Event.fetchIndex 1]⟩ :=
  ⟨by decide,
    ((fatal_fault_sink compositeTable 0 () [42] exampleCtx).1 (Fault.compositeIndex 0 "pair")
      (by decide) rfl).1,
    (fatal_fault_sink mismatchTable 0 () [42] exampleCtx).2 ⟨"name", [⟨true⟩]⟩
      [trieSegment "rd-0" true [0] [false]] []
      ⟨false, [ReadableIndex.other], fun p => p, [false], "rd-1"⟩
      (by decide) (by decide) rfl (by decide) rfl rfl⟩

/-! ## C12 -/

/-- C12. When the pattern and options compile to an automaton `A`, the string
entry point ends as the automaton entry point called with `A`: same outcome,
same final sink, same trace. When compilation fails, the string entry point
fails with the compilation error, the sink unchanged and the trace empty: no
segment is touched. -/
theorem string_entry_point_refines {DFA E : Type}
    (create_regex_dfa : String → String → Except E DFA) (tab : DfaDbTable DFA)
    (indexId : Nat) (regexStr regexOptions : String) (recIdvec : List Int) (ctx : DbContext) :
    (∀ A, create_regex_dfa regexStr regexOptions = Except.ok A →
        indexMatchRegexStr create_regex_dfa tab indexId regexStr regexOptions recIdvec ctx
          = ⟨EntryOutcome.finished (indexMatchRegex tab indexId A recIdvec ctx).outcome,
              (indexMatchRegex tab indexId A recIdvec ctx).recIdvec,
              (indexMatchRegex tab indexId A recIdvec ctx).trace⟩)
      ∧ (∀ e, create_regex_dfa regexStr regexOptions = Except.error e →
          indexMatchRegexStr create_regex_dfa tab indexId regexStr regexOptions recIdvec ctx
            = ⟨EntryOutcome.compileError e, recIdvec, []⟩) := by
  constructor
  · intro A h
    unfold indexMatchRegexStr
    rw [h]
  · intro e h
    unfold indexMatchRegexStr
    rw [h]

/-- Witness for C12: on the scenario table the pattern `"a.*"` compiles and the
string entry point returns `[3, 5]` as the automaton entry point does; the
pattern `"("` does not compile and the sink keeps `[42]`. -/
theorem string_entry_point_refines_witness :
    (indexMatchRegexStr exampleCompile scenarioTable 0 "a.*" "" [42] exampleCtx).recIdvec
        = (indexMatchRegex scenarioTable 0 () [42] exampleCtx).recIdvec
      ∧ (indexMatchRegex scenarioTable 0 () [42] exampleCtx).recIdvec = [3, 5]
      ∧ (indexMatchRegexStr exampleCompile scenarioTable 0 "(" "" [42] exampleCtx).recIdvec
          = [42]
      ∧ (indexMatchRegexStr exampleCompile scenarioTable 0 "(" "" [42] exampleCtx).trace = [] :=
  ⟨congrArg EntryRun.recIdvec
      ((string_entry_point_refines exampleCompile scenarioTable 0 "a.*" "" [42] exampleCtx).1 ()
        (by simp [exampleCompile])),
    by decide,
    congrArg EntryRun.recIdvec
      ((string_entry_point_refines exampleCompile scenarioTable 0 "(" "" [42] exampleCtx).2
        "missing )" (by simp [exampleCompile])),
    congrArg EntryRun.trace
      ((string_entry_point_refines exampleCompile scenarioTable 0 "(" "" [42] exampleCtx).2
        "missing )" (by simp [exampleCompile]))⟩

/-! ## C13 -/

theorem blocksFrom_nil_of_no_match {DFA : Type} (tab : DfaDbTable DFA) (indexId : Nat)
    (regexDFA : DFA) (ctx : DbContext) :
    ∀ (segs : List (ReadableSegment DFA)) (i : Nat),
      MatchesNothing indexId regexDFA ctx segs →
      blocksFrom tab indexId regexDFA ctx segs i = [] := by
  intro segs
  induction segs with
  | nil => intro i _; rfl
  | cons seg rest ih =>
    intro i h
    have ih2 := ih (i + 1) (fun s hs => h s (List.mem_cons_of_mem _ hs))
    cases hw : seg.getWritableStore with
    | true => simp [blocksFrom, segmentBlock, hw, ih2]
    | false =>
      obtain ⟨hflag, hids⟩ := h seg (List.mem_cons_self _ _) hw
      simp [blocksFrom, segmentBlock, hw, hflag, hids, ih2, keptRowIds]

theorem trie_index_in_range {DFA : Type} (indexId : Nat) (seg : ReadableSegment DFA)
    (h : (trieIndexAt indexId seg).isSome = true) : indexId < seg.m_indices.length := by
  obtain ⟨index, hidx⟩ := Option.isSome_iff_exists.mp h
  have hget := trieIndexAt_eq_some indexId seg index hidx
  by_contra hge
  rw [List.getElem?_eq_none (Nat.le_of_not_lt hge)] at hget
  exact Option.noConfusion hget

/-- C13. For every valid index with a single string column, every list of
segments (empty, all readonly, or mixed with writable ones) with a row number
base entry each, and every initial accumulator: if every readonly segment's
match reports success and appends nothing, the call returns `true` with an
empty result. -/
theorem no_match_gives_empty_result {DFA : Type} (tab : DfaDbTable DFA)
    (indexId : Nat) (schema : Schema) (regexDFA : DFA) (recIdvec : List Int) (ctx : DbContext)
    (hidx : SingleStringIndex tab indexId schema)
    (hlen : tab.m_segments.length ≤ tab.m_rowNumVec.length)
    (hzero : MatchesNothing indexId regexDFA ctx tab.m_segments) :
    (indexMatchRegex tab indexId regexDFA recIdvec ctx).outcome = Outcome.returned true
      ∧ (indexMatchRegex tab indexId regexDFA recIdvec ctx).recIdvec = [] := by
  have hok : AllMatchesSucceed indexId regexDFA ctx tab.m_segments :=
    fun seg hseg hw => (hzero seg hseg hw).1
  have htrie := succeed_imp_trie indexId regexDFA ctx _ hok
  have hwf : WellFormed tab indexId regexDFA ctx := by
    refine ⟨hlen, ?_⟩
    intro seg hseg hw
    refine ⟨trie_index_in_range indexId seg (htrie seg hseg hw), ?_⟩
    intro _ p hp
    rw [(hzero seg hseg hw).2] at hp
    exact absurd hp (List.not_mem_nil p)
  rw [indexMatchRegex_run tab indexId schema regexDFA recIdvec ctx hidx hwf htrie]
  exact ⟨rfl, blocksFrom_nil_of_no_match tab indexId regexDFA ctx _ 0 hzero⟩

/-- Witness for C13: `noMatchTable` mixes a writable and two readonly segments
and starts from a stale accumulator. -/
theorem no_match_gives_empty_result_witness :
    SingleStringIndex noMatchTable 0 ⟨"name", [⟨true⟩]⟩
      ∧ noMatchTable.m_segments.length ≤ noMatchTable.m_rowNumVec.length
      ∧ MatchesNothing 0 () exampleCtx noMatchTable.m_segments
      ∧ (indexMatchRegex noMatchTable 0 () [7, 8, 9] exampleCtx).outcome = Outcome.returned true
      ∧ (indexMatchRegex noMatchTable 0 () [7, 8, 9] exampleCtx).recIdvec = [] :=
  ⟨by decide, by decide, by decide,
    (no_match_gives_empty_result noMatchTable 0 ⟨"name", [⟨true⟩]⟩ () [7, 8, 9] exampleCtx
      (by decide) (by decide) (by decide)).1,
    (no_match_gives_empty_result noMatchTable 0 ⟨"name", [⟨true⟩]⟩ () [7, 8, 9] exampleCtx
      (by decide) (by decide) (by decide)).2⟩

/-! ## C14 -/

/-- A call either stops before line 93, with an outcome that is not a return
and the accumulator as the caller passed it, or it clears the accumulator and
ends in a state that does not depend on what the caller passed. -/
theorem indexMatchRegex_cases {DFA : Type} (tab : DfaDbTable DFA)
    (indexId : Nat) (regexDFA : DFA) (ctx : DbContext) :
    (∃ o, (∀ b, o ≠ Outcome.returned b)
        ∧ ∀ recIdvec, indexMatchRegex tab indexId regexDFA recIdvec ctx = ⟨o, recIdvec, []⟩)
      ∨ (∃ r, ∀ recIdvec, indexMatchRegex tab indexId regexDFA recIdvec ctx = r) := by
  by_cases hlt : indexId ≥ tab.m_schema.getIndexNum
  · left
    refine ⟨Outcome.thrown (Fault.invalidIndexId indexId tab.m_schema.getIndexNum),
      fun b h => Outcome.noConfusion h, fun v => ?_⟩
    unfold indexMatchRegex
    rw [if_pos hlt]
  · match hs : tab.m_schema.getIndexSchema indexId with
    | none =>
      left
      refine ⟨Outcome.undefined, fun b h => Outcome.noConfusion h, fun v => ?_⟩
      unfold indexMatchRegex
      rw [if_neg hlt, hs]
    | some schema =>
      by_cases hcn : schema.columnNum > 1
      · left
        refine ⟨Outcome.thrown (Fault.compositeIndex indexId schema.m_name),
      fun b h => Outcome.noConfusion h, fun v => ?_⟩
        unfold indexMatchRegex
        rw [if_neg hlt, hs]
        simp only [if_pos hcn]
      · match hcm : schema.getColumnMeta 0 with
        | none =>
          left
          refine ⟨Outcome.undefined, fun b h => Outcome.noConfusion h, fun v => ?_⟩
          unfold indexMatchRegex
          rw [if_neg hlt, hs]
          simp only [if_neg hcn, hcm]
        | some colmeta =>
          cases hstr : colmeta.isString with
          | false =>
            left
            refine ⟨Outcome.thrown (Fault.nonStringIndex indexId schema.m_name),
      fun b h => Outcome.noConfusion h, fun v => ?_⟩
            unfold indexMatchRegex
            rw [if_neg hlt, hs]
            simp only [if_neg hcn, hcm, hstr, Bool.not_false, if_true]
          | true =>
            right
            refine ⟨visitSegments tab indexId schema regexDFA ctx tab.m_segments 0 [] [],
              fun v => ?_⟩
            unfold indexMatchRegex
            rw [if_neg hlt, hs]
            simp only [if_neg hcn, hcm, hstr, Bool.not_true, Bool.false_eq_true, if_false]

/-- C14. For every table, index id and automaton, a call that returns a result
returns the same result (and trace) whatever the prior contents of the
caller's accumulator, because line 93 clears it; and calling again on the
accumulator a first call produced ends in the same state as the first call. -/
theorem result_independent_of_prior_accumulator {DFA : Type} (tab : DfaDbTable DFA)
    (indexId : Nat) (regexDFA : DFA) (ctx : DbContext) :
    (∀ (recIdvec other : List Int) (b : Bool),
        (indexMatchRegex tab indexId regexDFA recIdvec ctx).outcome = Outcome.returned b →
        indexMatchRegex tab indexId regexDFA other ctx
          = indexMatchRegex tab indexId regexDFA recIdvec ctx)
      ∧ (∀ recIdvec : List Int,
          indexMatchRegex tab indexId regexDFA
              (indexMatchRegex tab indexId regexDFA recIdvec ctx).recIdvec ctx
            = indexMatchRegex tab indexId regexDFA recIdvec ctx) := by
  rcases indexMatchRegex_cases tab indexId regexDFA ctx with ⟨o, ho, h⟩ | ⟨r, h⟩
  · constructor
    · intro v w b hb
      rw [h v] at hb
      exact absurd hb (ho b)
    · intro v
      rw [h v, h v]
  · constructor
    · intro v w b _
      rw [h v, h w]
    · intro v
      rw [h v, h _]

/-- Witness for C14 on the scenario table: the stale accumulator `[42]` and
the empty one give the same run, and a second call on the result `[3, 5]` gives
`[3, 5]` again. -/
theorem result_independent_of_prior_accumulator_witness :
    (indexMatchRegex scenarioTable 0 () [42] exampleCtx).outcome = Outcome.returned true
      ∧ indexMatchRegex scenarioTable 0 () [] exampleCtx
          = indexMatchRegex scenarioTable 0 () [42] exampleCtx
      ∧ indexMatchRegex scenarioTable 0 ()
            (indexMatchRegex scenarioTable 0 () [42] exampleCtx).recIdvec exampleCtx
          = indexMatchRegex scenarioTable 0 () [42] exampleCtx
      ∧ (indexMatchRegex scenarioTable 0 () [42] exampleCtx).recIdvec = [3, 5] :=
  ⟨by decide,
    (result_independent_of_prior_accumulator scenarioTable 0 () exampleCtx).1 [42] [] true
      (by decide),
    (result_independent_of_prior_accumulator scenarioTable 0 () exampleCtx).2 [42],
    by decide⟩

/-! ## C15 -/

theorem tolower_eq_zero (n : Nat) : tolower n = 0 ↔ n = 0 := by
  unfold tolower
  split <;> omega

/-- On C strings, `strcasecmp` returns 0 exactly when the two strings are equal
after lowering their letters. -/
theorem strcasecmp_eq_zero_iff : ∀ (a b : List Char),
    (∀ c ∈ a, c.toNat ≠ 0) → (∀ c ∈ b, c.toNat ≠ 0) →
    (strcasecmp a b = 0 ↔ lowerCodes a = lowerCodes b) := by
  intro a
  induction a with
  | nil =>
    intro b _ hb
    cases b with
    | nil => simp [strcasecmp, lowerCodes]
    | cons c cs =>
      have hc := hb c (List.mem_cons_self _ _)
      have : tolower c.toNat ≠ 0 := fun h => hc ((tolower_eq_zero _).mp h)
      simp only [strcasecmp, lowerCodes, List.map_nil, List.map_cons]
      constructor
      · intro h; omega
      · intro h; exact absurd h (by simp)
  | cons x xs ih =>
    intro b ha hb
    cases b with
    | nil =>
      have hx := ha x (List.mem_cons_self _ _)
      have : tolower x.toNat ≠ 0 := fun h => hx ((tolower_eq_zero _).mp h)
      simp only [strcasecmp, lowerCodes, List.map_nil, List.map_cons]
      constructor
      · intro h; omega
      · intro h; exact absurd h (by simp)
    | cons c cs =>
      have ih2 := ih cs (fun d hd => ha d (List.mem_cons_of_mem _ hd))
        (fun d hd => hb d (List.mem_cons_of_mem _ hd))
      simp only [strcasecmp, lowerCodes, List.map_cons, List.cons.injEq]
      by_cases h : tolower x.toNat = tolower c.toNat
      · rw [if_pos h]
        simp only [lowerCodes] at ih2
        rw [ih2]
        constructor
        · intro h2; exact ⟨h, h2⟩
        · intro h2; exact h2.2
      · rw [if_neg h]
        constructor
        · intro h2; omega
        · intro h2; exact absurd h2.1 h

theorem overrideIsMock_iff {E : Type} (env : FactoryEnv E) (hc : OverrideIsCString env) :
    overrideIsMock env = true ↔ OverrideNamesMock env := by
  unfold overrideIsMock OverrideNamesMock
  cases hv : env.getenv "TerarkDB_DfaWritableSegment" with
  | none => simp
  | some v =>
    have hmock : ∀ c ∈ "mock".data, c.toNat ≠ 0 := by decide
    have := strcasecmp_eq_zero_iff v.data "mock".data (hc v hv) hmock
    simp only [beq_iff_eq, Option.some.injEq, exists_eq_left']
    exact this

/-- C15. For every value of the backend override that is unset or a C string,
`createWritableSegment(dir)` takes the mock branch if and only if the override
is set and equals `"mock"` ignoring letter case. In that case it returns the
in-memory mock backend bound to `dir` with the table's schema attached (and
does not load it). For every other value, including unset, it instantiates the
default persistent backend, attaches the table's schema and loads it from
`dir`: it returns that segment, or fails with the error of the load. -/
theorem createWritableSegment_selects_backend {E : Type} (env : FactoryEnv E)
    (m_schema : SchemaConfig) (dir : PathRef) (hc : OverrideIsCString env) :
    (OverrideNamesMock env →
        createWritableSegment env m_schema dir = Except.ok (mockSegmentFor m_schema dir))
      ∧ (¬ OverrideNamesMock env →
          createWritableSegment env m_schema dir
            = match env.loadError Backend.wiredTiger dir with
              | some e => Except.error e
              | none => Except.ok (loadedWtSegmentFor m_schema dir))
      ∧ (∀ seg, createWritableSegment env m_schema dir = Except.ok seg →
          (seg.backend = Backend.mock ↔ OverrideNamesMock env)) := by
  have hiff := overrideIsMock_iff env hc
  have h1 : OverrideNamesMock env →
      createWritableSegment env m_schema dir = Except.ok (mockSegmentFor m_schema dir) := by
    intro h
    unfold createWritableSegment
    rw [if_pos (hiff.mpr h)]
    rfl
  have h2 : ¬ OverrideNamesMock env →
      createWritableSegment env m_schema dir
        = match env.loadError Backend.wiredTiger dir with
          | some e => Except.error e
          | none => Except.ok (loadedWtSegmentFor m_schema dir) := by
    intro h
    unfold createWritableSegment
    rw [if_neg (fun hm => h (hiff.mp hm))]
    cases hl : env.loadError Backend.wiredTiger dir <;>
      simp [WritableSegment.load, WritableSegment.setSchema, newWtWritableSegment,
        loadedWtSegmentFor, hl]
  refine ⟨h1, h2, ?_⟩
  intro seg hseg
  by_cases hm : OverrideNamesMock env
  · rw [h1 hm] at hseg
    injection hseg with hseg
    subst hseg
    exact ⟨fun _ => hm, fun _ => rfl⟩
  · rw [h2 hm] at hseg
    cases hl : env.loadError Backend.wiredTiger dir with
    | some e => rw [hl] at hseg; exact Except.noConfusion hseg
    | none =>
      rw [hl] at hseg
      injection hseg with hseg
      subst hseg
      exact ⟨fun h => Backend.noConfusion h, fun h => absurd h hm⟩

/-- Witness for C15: the override `"MoCk"` selects the mock backend; unset,
`"mockx"` and `"wt"` select the persistent backend, loaded from the directory. -/
theorem createWritableSegment_selects_backend_witness :
    createWritableSegment (exampleEnv (some "MoCk") []) stringSchema ["db", "wr-0"]
        = Except.ok (mockSegmentFor stringSchema ["db", "wr-0"])
      ∧ createWritableSegment (exampleEnv none []) stringSchema ["db", "wr-0"]
          = Except.ok (loadedWtSegmentFor stringSchema ["db", "wr-0"])
      ∧ createWritableSegment (exampleEnv (some "mockx") []) stringSchema ["db", "wr-0"]
          = Except.ok (loadedWtSegmentFor stringSchema ["db", "wr-0"])
      ∧ createWritableSegment (exampleEnv (some "wt") []) stringSchema ["db", "wr-0"]
          = Except.ok (loadedWtSegmentFor stringSchema ["db", "wr-0"]) :=
  ⟨(createWritableSegment_selects_backend (exampleEnv (some "MoCk") []) stringSchema
      ["db", "wr-0"]
      (by intro v hv; simp [exampleEnv] at hv; subst hv; decide)).1
      ⟨"MoCk", by simp [exampleEnv], by decide⟩,
    rfl, rfl, rfl⟩

/-! ## C16 -/

/-- C16. `openWritableSegment(dir)` treats `dir` as an existing writable segment
exactly when the marker `dir / "isDel"` exists. When it exists, the backend is
the mock backend if the override (unset or a C string) equals `"mock"` ignoring
letter case and the persistent backend otherwise; for both, the table's schema
is attached and the segment is then loaded from `dir` (the call returns it, or
fails with the error of the load), and the result does not depend on the
table's creation routine, which is not called. When the marker does not exist,
the result is exactly what the creation routine returns for `dir`. -/
theorem openWritableSegment_routes_on_marker {E : Type} (env : FactoryEnv E)
    (m_schema : SchemaConfig) (myCreateWritableSegment : PathRef → Except E WritableSegment)
    (dir : PathRef) (hc : OverrideIsCString env) :
    (env.pathExists (dir.join "isDel") = true →
        (OverrideNamesMock env →
          openWritableSegment env m_schema myCreateWritableSegment dir
            = match env.loadError Backend.mock dir with
              | some e => Except.error e
              | none => Except.ok (loadedMockSegmentFor m_schema dir))
        ∧ (¬ OverrideNamesMock env →
          openWritableSegment env m_schema myCreateWritableSegment dir
            = match env.loadError Backend.wiredTiger dir with
              | some e => Except.error e
              | none => Except.ok (loadedWtSegmentFor m_schema dir))
        ∧ (∀ other : PathRef → Except E WritableSegment,
          openWritableSegment env m_schema other dir
            = openWritableSegment env m_schema myCreateWritableSegment dir))
      ∧ (env.pathExists (dir.join "isDel") = false →
          openWritableSegment env m_schema myCreateWritableSegment dir
            = myCreateWritableSegment dir) := by
  have hiff := overrideIsMock_iff env hc
  constructor
  · intro hex
    refine ⟨?_, ?_, ?_⟩
    · intro hm
      unfold openWritableSegment
      simp only [hex, if_true, if_pos (hiff.mpr hm)]
      cases hl : env.loadError Backend.mock dir <;>
        simp [WritableSegment.load, WritableSegment.setSchema, newMockWritableSegment,
          loadedMockSegmentFor, hl]
    · intro hm
      unfold openWritableSegment
      simp only [hex, if_true, if_neg (fun h => hm (hiff.mp h))]
      cases hl : env.loadError Backend.wiredTiger dir <;>
        simp [WritableSegment.load, WritableSegment.setSchema, newWtWritableSegment,
          loadedWtSegmentFor, hl]
    · intro other
      unfold openWritableSegment
      simp only [hex, if_true]
  · intro hex
    unfold openWritableSegment
    simp only [hex, Bool.false_eq_true, if_false]

/-- Witness for C16: with the marker present and the override `"mock"`, the mock
segment is loaded from the directory; with the marker absent the result is
what the creation routine returns. -/
theorem openWritableSegment_routes_on_marker_witness :
    openWritableSegment (exampleEnv (some "mock") [["db", "wr-0", "isDel"]]) stringSchema
        exampleCreate ["db", "wr-0"]
        = Except.ok (loadedMockSegmentFor stringSchema ["db", "wr-0"])
      ∧ openWritableSegment (exampleEnv none [["db", "wr-0", "isDel"]]) stringSchema
          exampleCreate ["db", "wr-0"]
          = Except.ok (loadedWtSegmentFor stringSchema ["db", "wr-0"])
      ∧ openWritableSegment (exampleEnv (some "mock") []) stringSchema exampleCreate
          ["db", "wr-0"]
          = exampleCreate ["db", "wr-0"] :=
  ⟨((openWritableSegment_routes_on_marker (exampleEnv (some "mock") [["db", "wr-0", "isDel"]])
      stringSchema exampleCreate ["db", "wr-0"]
      (by intro v hv; simp [exampleEnv] at hv; subst hv; decide)).1 (by decide)).1
      ⟨"mock", by simp [exampleEnv], by decide⟩,
    rfl,
    (openWritableSegment_routes_on_marker (exampleEnv (some "mock") []) stringSchema
      exampleCreate ["db", "wr-0"]
      (by intro v hv; simp [exampleEnv] at hv; subst hv; decide)).2 (by decide)⟩

/-! ## C17 -/

theorem keptRowIds_eq_filterMap {DFA : Type} (seg : ReadableSegment DFA) (baseId : Int) :
    ∀ appended : List Int,
      keptRowIds seg baseId appended = filterMapAppended seg baseId appended := by
  intro appended
  induction appended with
  | nil => rfl
  | cons p rest ih =>
    cases hd : seg.isDeleted (seg.getLogicId (toSizeT p)) with
    | true =>
      rw [keptRowIds_cons_deleted seg baseId p rest hd, ih]
      simp [filterMapAppended, hd]
    | false =>
      rw [keptRowIds_cons_kept seg baseId p rest hd, ih]
      simp [filterMapAppended, hd]

theorem filterMapAppended_length {DFA : Type} (seg : ReadableSegment DFA) (baseId : Int) :
    ∀ appended : List Int,
      (filterMapAppended seg baseId appended).length
        = (appended.filter (fun p => !seg.isDeleted (seg.getLogicId (toSizeT p)))).length := by
  intro appended
  induction appended with
  | nil => rfl
  | cons p rest ih =>
    unfold filterMapAppended at ih ⊢
    cases hd : seg.isDeleted (seg.getLogicId (toSizeT p)) <;>
      simp [List.filterMap_cons, List.filter_cons, hd, ih]

/-- The write cursor the loop returns does not exceed the final read cursor
when it did not exceed the read cursor at the start. -/
theorem compactLoop_cursor {DFA : Type} (seg : ReadableSegment DFA) (baseId : Int) :
    ∀ (n j i : Nat) (vec : List Int) (k : Nat) (vec2 : List Int),
      compactLoop seg baseId n j i vec = some (k, vec2) → i ≤ j → k ≤ j + n ∧ i ≤ k := by
  intro n
  induction n with
  | zero =>
    intro j i vec k vec2 h hij
    simp only [compactLoop, Option.some.injEq, Prod.mk.injEq] at h
    omega
  | succ n ih =>
    intro j i vec k vec2 h hij
    unfold compactLoop at h
    match hv : vec[j]? with
    | none => rw [hv] at h; exact Option.noConfusion h
    | some v =>
      rw [hv] at h
      simp only at h
      match hd : seg.m_isDel[seg.getLogicId (toSizeT v)]? with
      | none => rw [hd] at h; exact Option.noConfusion h
      | some true =>
        rw [hd] at h
        have := ih (j + 1) i vec k vec2 h (by omega)
        omega
      | some false =>
        rw [hd] at h
        simp only at h
        by_cases hlt : i < vec.length
        · rw [if_pos hlt] at h
          have := ih (j + 1) (i + 1) _ k vec2 h (by omega)
          omega
        · rw [if_neg hlt] at h
          exact Option.noConfusion h

/-- C17. The in-place compaction of lines 110-117, run on an accumulator `vec`
of size `s` to which a successful match appended `m` ids, equals the
out-of-place stable filter-map over the appended slice: the loop ends with
write cursor `s + k`, where `k <= m` is the number of appended ids whose logical
id is not deleted, and the truncated accumulator is `vec` followed by the
survivors' table-wide ids in their original order, so its first `s` entries
are unchanged. Started with the write cursor not beyond the read cursor, the
loop ends with the write cursor not beyond the read cursor. -/
theorem compaction_is_stable_filter_map {DFA : Type} (seg : ReadableSegment DFA)
    (baseId : Int) (vec appended : List Int)
    (hin : ∀ p ∈ appended, seg.getLogicId (toSizeT p) < seg.m_isDel.length) :
    (∃ vec2,
        compactLoop seg baseId ((vec ++ appended).length - vec.length) vec.length vec.length
            (vec ++ appended)
          = some (vec.length + (filterMapAppended seg baseId appended).length, vec2)
        ∧ vec2.take (vec.length + (filterMapAppended seg baseId appended).length)
            = vec ++ filterMapAppended seg baseId appended
        ∧ (vec2.take (vec.length + (filterMapAppended seg baseId appended).length)).take
            vec.length = vec
        ∧ (vec2.take (vec.length + (filterMapAppended seg baseId appended).length)).drop
            vec.length = filterMapAppended seg baseId appended)
      ∧ (filterMapAppended seg baseId appended).length
          = (appended.filter
              (fun p => !seg.isDeleted (seg.getLogicId (toSizeT p)))).length
      ∧ (filterMapAppended seg baseId appended).length ≤ appended.length
      ∧ (∀ (n j i : Nat) (v : List Int) (k : Nat) (v2 : List Int),
          compactLoop seg baseId n j i v = some (k, v2) → i ≤ j → k ≤ j + n) := by
  obtain ⟨vec2, h1, h2, _⟩ := compactLoop_spec seg baseId appended vec [] hin
  rw [keptRowIds_eq_filterMap] at h1 h2
  have hlen := filterMapAppended_length seg baseId appended
  refine ⟨⟨vec2, ?_, h2, ?_, ?_⟩, hlen, ?_, ?_⟩
  · have e : (vec ++ appended).length - vec.length = appended.length := by simp
    rw [e]
    simpa using h1
  · rw [h2]; simp
  · rw [h2]; simp
  · rw [hlen]; exact List.length_filter_le _ _
  · intro n j i v k v2 h hij
    exact (compactLoop_cursor seg baseId n j i v k v2 h hij).1

/-- Witness for C17: an accumulator `[7, 8]` extended by the physical ids 0 to
5 of `compactionSegment` with base 100; logical ids 5, 2 and 1 survive, in
that order. -/
theorem compaction_is_stable_filter_map_witness :
    (∀ p ∈ [(0 : Int), 1, 2, 3, 4, 5],
        compactionSegment.getLogicId (toSizeT p) < compactionSegment.m_isDel.length)
      ∧ filterMapAppended compactionSegment 100 [0, 1, 2, 3, 4, 5] = [105, 102, 101]
      ∧ ∃ vec2,
          compactLoop compactionSegment 100
              (([7, 8] ++ [0, 1, 2, 3, 4, 5] : List Int).length - ([7, 8] : List Int).length)
              ([7, 8] : List Int).length ([7, 8] : List Int).length
              ([7, 8] ++ [0, 1, 2, 3, 4, 5])
            = some (([7, 8] : List Int).length
                + (filterMapAppended compactionSegment 100 [0, 1, 2, 3, 4, 5]).length, vec2)
          ∧ vec2.take (([7, 8] : List Int).length
                + (filterMapAppended compactionSegment 100 [0, 1, 2, 3, 4, 5]).length)
              = [7, 8] ++ filterMapAppended compactionSegment 100 [0, 1, 2, 3, 4, 5] :=
  ⟨by decide, by decide,
    (compaction_is_stable_filter_map compactionSegment 100 [7, 8] [0, 1, 2, 3, 4, 5]
      (by decide)).1.imp (fun _ h => ⟨h.1, h.2.1⟩)⟩

/-! ## C18 -/

/-- C18. Under table well-formedness (the row number base has an entry for
every segment, every readonly segment holds more than `indexId` index objects,
every id appended by a successful match translates to a logical id inside the
deletion bitmap) and with at least one column in the schema index at `indexId`,
no subscript of `indexMatchRegex` is out of range: the run never ends in
`Outcome.undefined`, the outcome of a failed lookup. The check
`indexId < schema.indexCount` alone does not bound the per-segment index
lookup: in `shortIndexTable` the index id is valid and the lookup
`m_indices[indexId]` is out of range. -/
theorem lookups_in_bounds {DFA : Type} (tab : DfaDbTable DFA)
    (indexId : Nat) (regexDFA : DFA) (recIdvec : List Int) (ctx : DbContext)
    (hwf : WellFormed tab indexId regexDFA ctx)
    (hcol : ∀ schema, tab.m_schema.getIndexSchema indexId = some schema →
      1 ≤ schema.columnNum) :
    (indexMatchRegex tab indexId regexDFA recIdvec ctx).outcome ≠ Outcome.undefined
      ∧ (0 < shortIndexTable.m_schema.getIndexNum
          ∧ (indexMatchRegex shortIndexTable 0 () [] exampleCtx).outcome = Outcome.undefined) := by
  refine ⟨?_, by decide, by decide⟩
  by_cases hlt : indexId ≥ tab.m_schema.getIndexNum
  · unfold indexMatchRegex
    rw [if_pos hlt]
    exact fun h => Outcome.noConfusion h
  · have hlt2 : indexId < tab.m_schema.indexSchemas.length := by
      unfold SchemaConfig.getIndexNum at hlt; omega
    obtain ⟨schema, hs⟩ : ∃ schema, tab.m_schema.getIndexSchema indexId = some schema :=
      ⟨tab.m_schema.indexSchemas[indexId], List.getElem?_eq_getElem hlt2⟩
    have hc := hcol schema hs
    by_cases hcn : schema.columnNum > 1
    · unfold indexMatchRegex
      rw [if_neg hlt, hs]
      simp only [if_pos hcn]
      exact fun h => Outcome.noConfusion h
    · have hc0 : 0 < schema.columns.length := by
        unfold Schema.columnNum at hc; omega
      obtain ⟨colmeta, hcm⟩ : ∃ colmeta, schema.getColumnMeta 0 = some colmeta :=
        ⟨schema.columns[0], List.getElem?_eq_getElem hc0⟩
      cases hstr : colmeta.isString with
      | false =>
        unfold indexMatchRegex
        rw [if_neg hlt, hs]
        simp only [if_neg hcn, hcm, hstr, Bool.not_false, if_true]
        exact fun h => Outcome.noConfusion h
      | true =>
        have hidx : SingleStringIndex tab indexId schema := by
          refine ⟨hs, ?_, ?_⟩
          · unfold Schema.columnNum at hc hcn; omega
          · unfold Schema.getColumnMeta at hcm
            unfold Schema.columnNum at hc hcn
            match hcols : schema.columns with
            | [] => rw [hcols] at hc; simp at hc
            | [c] =>
              rw [hcols] at hcm
              simp at hcm
              subst hcm
              simp [hstr]
            | _ :: _ :: _ => rw [hcols] at hcn; simp at hcn
        by_cases htrie : AllReadonlyTrie indexId tab.m_segments
        · rw [indexMatchRegex_run tab indexId schema regexDFA recIdvec ctx hidx hwf htrie]
          exact fun h => Outcome.noConfusion h
        · rw [indexMatchRegex_eq_visit tab indexId schema regexDFA recIdvec ctx hidx,
            visit_throws_without_trie tab indexId schema regexDFA ctx tab.m_segments 0 [] []
              hwf.2 (by simpa using hwf.1) htrie]
          exact fun h => Outcome.noConfusion h

/-- Witness for C18 on the scenario table. -/
theorem lookups_in_bounds_witness :
    WellFormed scenarioTable 0 () exampleCtx
      ∧ (∀ schema, scenarioTable.m_schema.getIndexSchema 0 = some schema →
          1 ≤ schema.columnNum)
      ∧ (indexMatchRegex scenarioTable 0 () [] exampleCtx).outcome ≠ Outcome.undefined
      ∧ ¬ WellFormed shortIndexTable 0 () exampleCtx :=
  ⟨by decide,
    by intro schema h; simp [scenarioTable, stringSchema, SchemaConfig.getIndexSchema] at h
       subst h; decide,
    (lookups_in_bounds scenarioTable 0 () [] exampleCtx (by decide)
      (by intro schema h; simp [scenarioTable, stringSchema, SchemaConfig.getIndexSchema] at h
          subst h; decide)).1,
    by decide⟩

/-! ## C19 -/

theorem toSizeT_nonneg_llong (v : Int) (h0 : 0 ≤ v) (h1 : v < (twoPow63 : Int)) :
    (toSizeT v : Int) = v := by
  unfold twoPow63 at h1
  unfold toSizeT twoPow64
  push_cast at h1 ⊢
  omega

theorem addBaseId_eq_wrapSigned (baseId : Int) (l : Nat) :
    addBaseId baseId l = wrapSigned (baseId + (l : Int)) := by
  unfold addBaseId toLLong toSizeT wrapSigned twoPow64 twoPow63
  push_cast
  split <;> split <;> omega

theorem addBaseId_isLLong (baseId : Int) (l : Nat) : IsLLong (addBaseId baseId l) := by
  unfold IsLLong addBaseId toLLong toSizeT twoPow64 twoPow63
  push_cast
  split <;> constructor <;> omega

/-- C19. The table-wide id the loop writes for a survivor is
`addBaseId baseId subLogicId`: the sum of the signed base and the unsigned
logical id taken modulo `2^64` and read as a signed 64-bit value, hence an
`llong` value. When `0 <= rowBase[i]` and `rowBase[i] + logicalId < 2^63` it is
the exact integer sum. A non-negative `llong` physical id the match appended is
read back from the accumulator unchanged. -/
theorem stored_row_id_is_wrapped_sum {DFA : Type} (seg : ReadableSegment DFA)
    (baseId : Int) (vec : List Int) (p : Int)
    (hin : seg.getLogicId (toSizeT p) < seg.m_isDel.length)
    (hlive : seg.isDeleted (seg.getLogicId (toSizeT p)) = false) :
    (∃ vec2, compactLoop seg baseId 1 vec.length vec.length (vec ++ [p])
          = some (vec.length + 1, vec2)
        ∧ vec2.take (vec.length + 1)
            = vec ++ [addBaseId baseId (seg.getLogicId (toSizeT p))])
      ∧ (∀ l : Nat, addBaseId baseId l = wrapSigned (baseId + (l : Int)))
      ∧ (∀ l : Nat, IsLLong (addBaseId baseId l))
      ∧ (∀ l : Nat, 0 ≤ baseId → baseId + (l : Int) < (twoPow63 : Int) →
          addBaseId baseId l = baseId + (l : Int))
      ∧ (0 ≤ p → p < (twoPow63 : Int) → (toSizeT p : Int) = p) := by
  refine ⟨?_, addBaseId_eq_wrapSigned baseId, addBaseId_isLLong baseId, ?_,
    toSizeT_nonneg_llong p⟩
  · obtain ⟨vec2, h1, h2, _⟩ := compactLoop_spec seg baseId [p] vec []
      (by intro v hv; simp at hv; subst hv; exact hin)
    rw [keptRowIds_cons_kept seg baseId p [] hlive] at h1 h2
    refine ⟨vec2, ?_, ?_⟩
    · simpa [keptRowIds] using h1
    · simpa [keptRowIds] using h2
  · intro l h0 h1
    apply addBaseId_exact
    · unfold IsLLong twoPow63 at *; constructor <;> omega
    · unfold IsLLong twoPow63 at *; constructor <;> omega

/-- Witness for C19: base 100 and physical id 0 of `compactionSegment`, whose
logical id 5 is live, give the stored id 105; at the edge of the range the sum
wraps around. -/
theorem stored_row_id_is_wrapped_sum_witness :
    compactionSegment.getLogicId (toSizeT 0) < compactionSegment.m_isDel.length
      ∧ compactionSegment.isDeleted (compactionSegment.getLogicId (toSizeT 0)) = false
      ∧ (∃ vec2, compactLoop compactionSegment 100 1 ([7] : List Int).length
            ([7] : List Int).length ([7] ++ [0])
          = some (([7] : List Int).length + 1, vec2)
        ∧ vec2.take (([7] : List Int).length + 1)
            = [7] ++ [addBaseId 100 (compactionSegment.getLogicId (toSizeT 0))])
      ∧ addBaseId 100 5 = 105
      ∧ addBaseId 9223372036854775807 1 = -9223372036854775808
      ∧ toSizeT 5 = 5 :=
  ⟨by decide, by decide,
    (stored_row_id_is_wrapped_sum compactionSegment 100 [7] 0 (by decide) (by decide)).1,
    by decide, by decide, by decide⟩

end DfaDb
